import Mathlib

/-!
Verification of the vdsm sos-report plugin
(`common/test-scenarios-files/vdsm-sos-plugin/vdsm.py`).

The plugin is sequential orchestration: it emits requests to the archival
subsystem (copy specs, forbidden paths, external commands, string artifacts)
and performs guarded remote calls.  We embed it shallowly: the run is a pure
function from an environment (option values, subprocess output, directory
listing, remote-endpoint behaviour) to the ordered list of requests it emits,
paired with the exception it propagates, if any.

Remote-call results are JSON-structured values; `collectVdsmCommand`
serializes them with `json.dumps`.  We model the JSON data type, the
serializer, and a deserializer, and prove the serialization round-trip.
-/

namespace Vdsm

/-- JSON-structured values: the data model of results returned by remote
calls (`json.dumps`-serializable values).  Object member order is kept,
matching Python dicts. -/
inductive Json where
  | null : Json
  | bool (b : Bool) : Json
  | num (n : Int) : Json
  | str (s : String) : Json
  | arr (xs : List Json) : Json
  | obj (kvs : List (String × Json)) : Json

/-- Hex digit character (lowercase), as produced by Python `format(n, "04x")`
inside `\uXXXX` escapes. -/
def hexDigitChar (n : Nat) : Char :=
  Char.ofNat (if n < 10 then 48 + n else 87 + n)

/-- Four-digit lowercase hex rendering of `n < 0x10000`. -/
def hex4 (n : Nat) : List Char :=
  [hexDigitChar (n / 4096 % 16), hexDigitChar (n / 256 % 16),
   hexDigitChar (n / 16 % 16), hexDigitChar (n % 16)]

/-- Escape one character the way Python `json.dumps` (default
`ensure_ascii=True`) does: short escapes for `"`, `\` and common control
characters, `\uXXXX` for other control and all non-ASCII characters,
surrogate pairs for astral code points, everything else literally. -/
def escChar (c : Char) : List Char :=
  if c = '"' then ['\\', '"']
  else if c = '\\' then ['\\', '\\']
  else if c = '\x08' then ['\\', 'b']
  else if c = '\x0c' then ['\\', 'f']
  else if c = '\n' then ['\\', 'n']
  else if c = '\x0d' then ['\\', 'r']
  else if c = '\t' then ['\\', 't']
  else if c.toNat < 0x20 ∨ 0x7e < c.toNat then
    if c.toNat < 0x10000 then
      '\\' :: 'u' :: hex4 c.toNat
    else
      '\\' :: 'u' :: hex4 (0xd800 + (c.toNat - 0x10000) / 0x400) ++
      '\\' :: 'u' :: hex4 (0xdc00 + (c.toNat - 0x10000) % 0x400)
  else [c]

/-- Escape a whole string body (content between the quotes). -/
def escChars : List Char → List Char
  | [] => []
  | c :: cs => escChar c ++ escChars cs

/-- Decimal digits of `n`, most significant first (Python `str` of a
non-negative int). -/
def natChars (n : Nat) : List Char :=
  if h : n < 10 then [Char.ofNat (48 + n)]
  else natChars (n / 10) ++ [Char.ofNat (48 + n % 10)]
  termination_by n
  decreasing_by omega

/-- Python `str` of an int. -/
def intChars (n : Int) : List Char :=
  if n < 0 then '-' :: natChars n.natAbs else natChars n.toNat

mutual

/-- Characters of `json.dumps(v)` with the default separators
`(", ", ": ")` and `ensure_ascii=True`. -/
def dumpChars : Json → List Char
  | .num n => intChars n
  | .str s => '"' :: escChars s.data ++ ['"']
  | .null => ['n', 'u', 'l', 'l']
  | .bool b => if b then ['t', 'r', 'u', 'e'] else ['f', 'a', 'l', 's', 'e']
  | .arr [] => ['[', ']']
  | .arr (v :: vs) => '[' :: (dumpChars v ++ dumpElems vs) ++ [']']
  | .obj [] => ['\x7b', '\x7d']
  | .obj (kv :: kvs) => '\x7b' :: (dumpMember kv ++ dumpMembers kvs) ++ ['\x7d']

/-- Trailing array elements, each preceded by the `", "` separator. -/
def dumpElems : List Json → List Char
  | [] => []
  | v :: vs => ',' :: ' ' :: (dumpChars v ++ dumpElems vs)

/-- One object member: `"key": value`. -/
def dumpMember : String × Json → List Char
  | (k, v) => '"' :: escChars k.data ++ '"' :: ':' :: ' ' :: dumpChars v

/-- Trailing object members, each preceded by the `", "` separator. -/
def dumpMembers : List (String × Json) → List Char
  | [] => []
  | kv :: kvs => ',' :: ' ' :: (dumpMember kv ++ dumpMembers kvs)

end

/-- `json.dumps` as a string. -/
def Json.dumps (v : Json) : String := ⟨dumpChars v⟩

mutual

/-- Structural size of a JSON value; used as the fuel bound for the
recursive-descent deserializer. -/
def jsize : Json → Nat
  | .arr vs => 1 + jsizeElems vs
  | .obj kvs => 1 + jsizeMembers kvs
  | _ => 1

/-- Size of trailing array elements. -/
def jsizeElems : List Json → Nat
  | [] => 0
  | v :: vs => jsize v + jsizeElems vs + 1

/-- Size of trailing object members. -/
def jsizeMembers : List (String × Json) → Nat
  | [] => 0
  | kv :: kvs => jsize kv.2 + jsizeMembers kvs + 1

end

/-- Value of one hex digit character (either case accepted, as by
`json.loads`). -/
def hexDigitVal (c : Char) : Option Nat :=
  if '0' ≤ c ∧ c ≤ '9' then some (c.toNat - 48)
  else if 'a' ≤ c ∧ c ≤ 'f' then some (c.toNat - 87)
  else if 'A' ≤ c ∧ c ≤ 'F' then some (c.toNat - 55)
  else none

/-- Value of a four-hex-digit group. -/
def hex4Val (a b c d : Char) : Option Nat :=
  match hexDigitVal a, hexDigitVal b, hexDigitVal c, hexDigitVal d with
  | some x, some y, some z, some w => some (((x * 16 + y) * 16 + z) * 16 + w)
  | _, _, _, _ => none

/-- Consume one four-hex-digit group. -/
def scanHex4 (cs : List Char) : Option (Nat × List Char) :=
  match cs with
  | a :: b :: c :: d :: cs1 => (hex4Val a b c d).map fun n => (n, cs1)
  | _ => none

/-- Decode what follows `\u`: a four-hex-digit group, combined with a
following low-surrogate escape when it is a high surrogate. -/
def scanUnicode (cs : List Char) : Option (Char × List Char) :=
  match scanHex4 cs with
  | none => none
  | some (n, cs1) =>
    if 0xd800 ≤ n ∧ n ≤ 0xdbff then
      match cs1 with
      | '\\' :: 'u' :: cs2 =>
        match scanHex4 cs2 with
        | none => none
        | some (m, cs3) =>
          if 0xdc00 ≤ m ∧ m ≤ 0xdfff then
            some (Char.ofNat (0x10000 + (n - 0xd800) * 0x400 + (m - 0xdc00)), cs3)
          else none
      | _ => none
    else if 0xdc00 ≤ n ∧ n ≤ 0xdfff then none
    else some (Char.ofNat n, cs1)

/-- Decode the character named by one escape introducer. -/
def escCode (e : Char) : Option Char :=
  if e = '"' then some '"'
  else if e = '\\' then some '\\'
  else if e = '/' then some '/'
  else if e = 'b' then some '\x08'
  else if e = 'f' then some '\x0c'
  else if e = 'n' then some '\n'
  else if e = 'r' then some '\x0d'
  else if e = 't' then some '\t'
  else none

/-- String-body scanner of the deserializer: consumes characters after the
opening quote up to and including the closing quote, decoding escapes
(including `\uXXXX` and surrogate pairs).  One unit of fuel is spent per
decoded character, so fuel exceeding the decoded length suffices. -/
def scanStr : Nat → List Char → List Char → Option (List Char × List Char)
  | 0, _, _ => none
  | _ + 1, [], _ => none
  | fu + 1, c :: cs, acc =>
    if c = '"' then some (acc.reverse, cs)
    else if c = '\\' then
      match cs with
      | [] => none
      | e :: cs1 =>
        if e = 'u' then
          match scanUnicode cs1 with
          | none => none
          | some (ch, cs2) => scanStr fu cs2 (ch :: acc)
        else
          match escCode e with
          | none => none
          | some ch => scanStr fu cs1 (ch :: acc)
    else scanStr fu cs (c :: acc)

/-- Scan a run of decimal digits and return its value (`none` if there is
no digit). -/
def scanNat (cs : List Char) : Option (Nat × List Char) :=
  let ds := cs.takeWhile Char.isDigit
  if ds.isEmpty then none
  else some (ds.foldl (fun a c => 10 * a + (c.toNat - 48)) 0, cs.dropWhile Char.isDigit)

/-- Consume an expected literal. -/
def expectLit : List Char → List Char → Option (List Char)
  | [], cs => some cs
  | p :: ps, c :: cs => if c = p then expectLit ps cs else none
  | _ :: _, [] => none

/-- Skip the single optional space the serializer emits after `,` and `:`. -/
def skipSp (cs : List Char) : List Char :=
  match cs with
  | ' ' :: cs1 => cs1
  | _ => cs

mutual

/-- Recursive-descent JSON value parser (model of `json.loads` restricted to
the grammar the serializer emits, with optional spaces after `,` and `:`).
Fuel bounds the recursion depth; `jsize` of the parsed value suffices. -/
def parseVal : Nat → List Char → Option (Json × List Char)
  | 0, _ => none
  | _ + 1, [] => none
  | fu + 1, c :: cs =>
    if c = 'n' then (expectLit ['u', 'l', 'l'] cs).map fun rest => (Json.null, rest)
    else if c = 't' then (expectLit ['r', 'u', 'e'] cs).map fun rest => (Json.bool true, rest)
    else if c = 'f' then (expectLit ['a', 'l', 's', 'e'] cs).map fun rest => (Json.bool false, rest)
    else if c = '"' then
      (scanStr (cs.length + 1) cs []).map fun p => (Json.str ⟨p.1⟩, p.2)
    else if c = '[' then
      match cs with
      | ']' :: rest => some (Json.arr [], rest)
      | _ => (parseElems fu cs).map fun p => (Json.arr p.1, p.2)
    else if c = '\x7b' then
      match cs with
      | '\x7d' :: rest => some (Json.obj [], rest)
      | _ => (parseMembers fu cs).map fun p => (Json.obj p.1, p.2)
    else if c = '-' then
      (scanNat cs).map fun p => (Json.num (-(p.1 : Int)), p.2)
    else if c.isDigit then
      (scanNat (c :: cs)).map fun p => (Json.num (p.1 : Int), p.2)
    else none

/-- Parse a non-empty comma-separated element list up to and including the
closing `]`. -/
def parseElems : Nat → List Char → Option (List Json × List Char)
  | 0, _ => none
  | fu + 1, cs =>
    match parseVal fu cs with
    | none => none
    | some (v, cs1) =>
      match cs1 with
      | ']' :: rest => some ([v], rest)
      | ',' :: cs2 =>
        match parseElems fu (skipSp cs2) with
        | none => none
        | some (vs, rest) => some (v :: vs, rest)
      | _ => none

/-- Parse a non-empty comma-separated member list up to and including the
closing brace. -/
def parseMembers : Nat → List Char → Option (List (String × Json) × List Char)
  | 0, _ => none
  | fu + 1, cs =>
    match cs with
    | '"' :: cs0 =>
      match scanStr (cs0.length + 1) cs0 [] with
      | none => none
      | some (k, cs1) =>
        match cs1 with
        | ':' :: cs2 =>
          match parseVal fu (skipSp cs2) with
          | none => none
          | some (v, cs3) =>
            match cs3 with
            | '\x7d' :: rest => some ([(⟨k⟩, v)], rest)
            | ',' :: cs4 =>
              match parseMembers fu (skipSp cs4) with
              | none => none
              | some (kvs, rest) => some ((⟨k⟩, v) :: kvs, rest)
            | _ => none
        | _ => none
    | _ => none

end

/-- Fuel that dominates the parse of any serialized value. -/
def jfuel (s : String) : Nat := s.length + 1

/-- `json.loads`, modelled from the spec: the deserializer of the archival
artifacts; accepts the serializer's output grammar and must consume the
whole input. -/
def loads (s : String) : Option Json :=
  match parseVal (jfuel s) s.data with
  | some (v, []) => some v
  | _ => none

/-- The digit-run accumulator used by `scanNat`. -/
def digitsVal (a : Nat) (l : List Char) : Nat :=
  l.foldl (fun a c => 10 * a + (c.toNat - 48)) a

/-- The characters that may legally follow a serialized value inside a
larger serialized term: nothing, or a separator/terminator. -/
def delimOk (rest : List Char) : Prop :=
  ∀ c, rest.head? = some c → c = ',' ∨ c = ']' ∨ c = '\x7d'

/-! ### The plugin embedding

`vdsm.setup` is a straight-line sequence of requests to the archival
subsystem, a connection attempt, guarded remote calls, and two unguarded
discovery calls.  We model the run as the ordered list of emitted requests
(`Event`s, with connection acquire/release markers), paired with the
exception that propagates out of `setup`, if any. -/

/-- One request emitted to the archival subsystem, or a connection
lifecycle marker. -/
inductive Event where
  | forbiddenPath (p : String) : Event
  | copySpec (p : String) : Event
  | copySpecLimit (p : String) (limit : Int) : Event
  | extOutput (cmd : String) : Event
  | stringAsFile (content : String) (name : String) : Event
  | connectAcquired : Event
  | connectClosed : Event

/-- One entry of the `/var/run/vdsm` directory listing: its path and
whether `stat` reports it as a Unix socket. -/
structure RunDirFile where
  path : String
  isSock : Bool

/-- Behaviour of the remote vdsm endpoint for one run: the outcome of each
remote call the plugin makes (`Except.error e` models the call raising an
exception whose string form is `e`).  `Host_getDeviceList` is the result of
`cli.Host.getDeviceList(checkStatus=False)`; `Host_getStorageDomains` takes
the `domainClass` argument; `StoragePool_getSpmStatus` takes the
`storagepoolID` argument. -/
structure Client where
  Host_getCapabilities : Except String Json
  Host_getStats : Except String Json
  Host_getAllVmStats : Except String Json
  Host_getVMFullList : Except String Json
  Host_getDeviceList : Except String Json
  Host_hostdevListByCaps : Except String Json
  Host_getAllTasksInfo : Except String Json
  Host_getAllTasksStatuses : Except String Json
  Host_getConnectedStoragePools : Except String (List String)
  StoragePool_getSpmStatus : String → Except String Json
  Host_getStorageDomains : Int → Except String (List String)

/-- Environment of one collection run: the two plugin options (`logsize`
is `none` when `getOption` returns `None`), the lines printed by
`pgrep qemu-kvm`, the `glob("/var/run/vdsm/*")` listing, and the outcome of
`client.connect("localhost")`. -/
structure Env where
  logsize : Option Int
  dumpVolumeChains : Bool
  pgrepLines : List String
  runDirFiles : List RunDirFile
  connect : Except String Client

/-- Hardcoded data domain storage class (`DATA_DOMAIN = 1`). -/
def DATA_DOMAIN : Int := 1

/-- `re.sub(r"\s+", " ", s)`: collapse every whitespace run to one space. -/
def collapseWs (l : List Char) (inWs : Bool) : List Char :=
  match l with
  | [] => []
  | c :: cs =>
    if c.isWhitespace then
      if inWs then collapseWs cs true else ' ' :: collapseWs cs true
    else c :: collapseWs cs false

/-- The raw `LVM_CONFIG` template string of the plugin. -/
def lvmTemplate : String :=
  "\nglobal \x7b\n    locking_type=0\n    metadata_read_only=1\n    use_lvmetad=0\n\x7d\ndevices \x7b\n    preferred_names=[ \"^/dev/mapper/\" ]\n    ignore_suspended_devices=1\n    write_cache_state=0\n    disable_after_error_count=3\n    filter=[ \"a|^/dev/mapper/.*|\", \"r|.*|\" ]\n\x7d\n"

/-- `LVM_CONFIG = re.sub(r"\s+", " ", LVM_CONFIG).strip()`. -/
def LVM_CONFIG : String := (String.mk (collapseWs lvmTemplate.data false)).trim

/-- Python `f.endswith(suffix)`. -/
def strEnds (s suffix : String) : Bool := suffix.data.isSuffixOf s.data

/-- `collectVdsmCommand(name, call, **kwargs)`: invoke the already-applied
call; on success store `json.dumps(result)` under `name`, on an exception
store `str(e)` under `name`. -/
def collectVdsmCommand (name : String) (call : Except String Json) : Event :=
  match call with
  | .ok result => .stringAsFile (Json.dumps result) name
  | .error e => .stringAsFile e name

/-- The three `addForbiddenPath` declarations, in source order. -/
def forbiddenEvents : List Event :=
  [.forbiddenPath "/etc/pki/vdsm/keys/*",
   .forbiddenPath "/etc/pki/vdsm/libvirt-spice/*-key.*",
   .forbiddenPath "/etc/pki/libvirt/private/*"]

/-- The log-directory request: `addCopySpecLimit("/var/log/vdsm/*", logsize)`
when `getOption("logsize")` is not `None`, else
`addCopySpec("/var/log/vdsm/*")`. -/
def logCopyEvent : Option Int → Event
  | some n => .copySpecLimit "/var/log/vdsm/*" n
  | none => .copySpec "/var/log/vdsm/*"

/-- `_addVdsmRunDir`: copy everything under `/var/run/vdsm` except `.vfd`
files, the `isoUploader` and `storage` entries, and Unix sockets. -/
def addVdsmRunDir (files : List RunDirFile) : List Event :=
  files.filterMap fun f =>
    if !(strEnds f.path ".vfd") && !(strEnds f.path "/isoUploader") &&
        !(strEnds f.path "/storage") && !f.isSock then
      some (.copySpec f.path)
    else none

/-- The per-qemu-kvm-process copy requests driven by `pgrep` output
(`pid = line.strip()`). -/
def procEvents (lines : List String) : List Event :=
  lines.flatMap fun line =>
    [.copySpec ("/proc/" ++ line.trim ++ "/cmdline"),
     .copySpec ("/proc/" ++ line.trim ++ "/status"),
     .copySpec ("/proc/" ++ line.trim ++ "/mountstats")]

/-- The fixed `collectExtOutput` commands issued after the pgrep loop, in
source order. -/
def extCmdEvents : List Event :=
  [.extOutput "/bin/ls -ldZ /etc/vdsm",
   .extOutput "/bin/su vdsm -s /bin/sh -c \x27/usr/bin/tree -l /rhev/data-center\x27",
   .extOutput "/bin/su vdsm -s /bin/sh -c \x27/bin/ls -lR /rhev/data-center\x27",
   .extOutput ("/sbin/lvm vgs -v -o +tags --config \x27" ++ LVM_CONFIG ++ "\x27"),
   .extOutput ("/sbin/lvm lvs -v -o +tags --config \x27" ++ LVM_CONFIG ++ "\x27"),
   .extOutput ("/sbin/lvm pvs -v -o +all --config \x27" ++ LVM_CONFIG ++ "\x27"),
   .extOutput "/sbin/fdisk -l",
   .extOutput "/usr/bin/iostat",
   .extOutput "/sbin/iscsiadm -m node",
   .extOutput "/sbin/iscsiadm -m session",
   .extOutput "/usr/sbin/nodectl info",
   .extOutput "/usr/bin/abrt-cli list"]

/-- Every request `setup` emits before the `client.connect` attempt, in
source order. -/
def preTrace (env : Env) : List Event :=
  forbiddenEvents
  ++ [.extOutput "service vdsmd status",
      .copySpec "/tmp/vds_installer*",
      .copySpec "/tmp/vds_bootstrap*",
      .copySpec "/etc/vdsm/*"]
  ++ [logCopyEvent env.logsize]
  ++ addVdsmRunDir env.runDirFiles
  ++ [.copySpec "/usr/libexec/vdsm/hooks",
      .copySpec "/var/lib/vdsm",
      .copySpec "/var/log/ovirt.log",
      .copySpec "/var/log/sanlock.log"]
  ++ procEvents env.pgrepLines
  ++ extCmdEvents

/-- The eight guarded host-level `collectVdsmCommand` calls, in source
order. -/
def hostEvents (cli : Client) : List Event :=
  [collectVdsmCommand "Host.getCapabilities" cli.Host_getCapabilities,
   collectVdsmCommand "Host.getStats" cli.Host_getStats,
   collectVdsmCommand "Host.getAllVmStats" cli.Host_getAllVmStats,
   collectVdsmCommand "Host.getVMFullList" cli.Host_getVMFullList,
   collectVdsmCommand "Host.getDeviceList" cli.Host_getDeviceList,
   collectVdsmCommand "Host.hostdevListByCaps" cli.Host_hostdevListByCaps,
   collectVdsmCommand "Host.getAllTasksInfo" cli.Host_getAllTasksInfo,
   collectVdsmCommand "Host.getAllTasksStatuses" cli.Host_getAllTasksStatuses]

/-- The per-pool fan-out: one guarded `getSpmStatus` call per pool returned
by the pool discovery, keyed `"StoragePool.getSpmStatus " + pool`. -/
def poolFanout (cli : Client) (pools : List String) : List Event :=
  pools.map fun pool =>
    collectVdsmCommand ("StoragePool.getSpmStatus " ++ pool)
      (cli.StoragePool_getSpmStatus pool)

/-- Events and propagated exception of the part of the `with` block that
follows the eight host calls: the unguarded pool discovery, the per-pool
fan-out, and (behind the `dump-volume-chains` option) the unguarded domain
discovery with its per-domain external commands. -/
def remoteTail (env : Env) (cli : Client) : List Event × Option String :=
  match cli.Host_getConnectedStoragePools with
  | .error e => ([], some e)
  | .ok pools =>
    let fan := poolFanout cli pools
    if env.dumpVolumeChains then
      match cli.Host_getStorageDomains DATA_DOMAIN with
      | .error e => (fan, some e)
      | .ok sds =>
        (fan ++ sds.map fun sd => .extOutput ("vdsm-tool dump-volume-chains " ++ sd), none)
    else (fan, none)

/-- `vdsm.setup`: the ordered requests of one run and the exception that
propagates out of `setup`, if any.  On connect failure a single error
artifact is stored and `setup` returns early; on success the connection is
scoped by `utils.closing`, so it is closed even when a discovery call
raises. -/
def setup (env : Env) : List Event × Option String :=
  match env.connect with
  | .error e =>
    (preTrace env ++ [.stringAsFile ("Cannot connect to vdsm: " ++ e) "client.connect"], none)
  | .ok cli =>
    let t := remoteTail env cli
    (preTrace env ++ .connectAcquired :: (hostEvents cli ++ t.1) ++ [.connectClosed], t.2)

/-- The name under which an event stores a string artifact, if it is one. -/
def entryName : Event → Option String
  | .stringAsFile _ name => some name
  | _ => none

/-- The names of the string artifacts (Bundle entries produced by
`addStringAsFile`) in a trace, in order. -/
def entryNames (trace : List Event) : List String :=
  trace.filterMap entryName

/-- How many string artifacts of a trace are stored under `name`. -/
def entryCount (name : String) (trace : List Event) : Nat :=
  trace.countP fun e => entryName e == some name

/-- How many external-command requests of a trace run `cmd`. -/
def countExt (cmd : String) (trace : List Event) : Nat :=
  trace.countP fun e =>
    match e with
    | .extOutput c => c == cmd
    | _ => false

def isConnAcquired : Event → Bool
  | .connectAcquired => true
  | _ => false

def isConnClosed : Event → Bool
  | .connectClosed => true
  | _ => false

/-- The filesystem paths of the copy requests in a trace (size-capped or
not), in order. -/
def copyPaths (trace : List Event) : List String :=
  trace.filterMap fun e =>
    match e with
    | .copySpec p => some p
    | .copySpecLimit p _ => some p
    | _ => none

/-- `fnmatch`-style glob matching restricted to the `*` wildcard (the only
one the plugin's forbidden patterns use); `*` matches any character run. -/
def globMatch : List Char → List Char → Bool
  | [], [] => true
  | [], _ :: _ => false
  | '*' :: ps, cs =>
    globMatch ps cs ||
      (match cs with
       | [] => false
       | _ :: cs1 => globMatch ('*' :: ps) cs1)
  | p :: ps, c :: cs => p == c && globMatch ps cs
  | _ :: _, [] => false
  termination_by ps cs => (ps.length, cs.length)

/-- The three forbidden private-key glob patterns. -/
def forbiddenPats : List String :=
  ["/etc/pki/vdsm/keys/*", "/etc/pki/vdsm/libvirt-spice/*-key.*", "/etc/pki/libvirt/private/*"]

/-- `p` is a prefix of `s` (as strings). -/
def strStarts (p s : String) : Bool := p.data.isPrefixOf s.data

/-- Environment sanity: the `glob("/var/run/vdsm/*")` results all lie under
`/var/run/vdsm/`, which the glob guarantees. -/
def envSane (env : Env) : Prop :=
  ∀ f ∈ env.runDirFiles, strStarts "/var/run/vdsm/" f.path = true

/-- The eight host-level artifact names, in source order. -/
def hostNames : List String :=
  ["Host.getCapabilities", "Host.getStats", "Host.getAllVmStats", "Host.getVMFullList",
   "Host.getDeviceList", "Host.hostdevListByCaps", "Host.getAllTasksInfo",
   "Host.getAllTasksStatuses"]

/-! ### Claims -/

/-- The run's unguarded discovery calls return without raising. -/
def discoveriesOk (env : Env) : Prop :=
  match env.connect with
  | .error _ => True
  | .ok cli =>
    (∃ pools, cli.Host_getConnectedStoragePools = .ok pools) ∧
    (env.dumpVolumeChains = true → ∃ sds, cli.Host_getStorageDomains DATA_DOMAIN = .ok sds)

/-- The names of the string artifacts the run attempts: only the connect
error artifact when the connection fails, otherwise one per guarded remote
call (eight host calls plus one per discovered pool). -/
def attemptedEntryNames (env : Env) : List String :=
  match env.connect with
  | .error _ => ["client.connect"]
  | .ok cli =>
    hostNames ++
      (match cli.Host_getConnectedStoragePools with
       | .ok pools => pools.map fun p => "StoragePool.getSpmStatus " ++ p
       | .error _ => [])

/-- A client whose unguarded pool discovery raises while every guarded call
succeeds. -/
def cliPoolsRaise : Client :=
  { Host_getCapabilities := .ok .null
    Host_getStats := .ok .null
    Host_getAllVmStats := .ok .null
    Host_getVMFullList := .ok .null
    Host_getDeviceList := .ok .null
    Host_hostdevListByCaps := .ok .null
    Host_getAllTasksInfo := .ok .null
    Host_getAllTasksStatuses := .ok .null
    Host_getConnectedStoragePools := .error "pools exploded"
    StoragePool_getSpmStatus := fun _ => .ok .null
    Host_getStorageDomains := fun _ => .ok [] }

def envPoolsRaise : Env :=
  { logsize := none, dumpVolumeChains := false, pgrepLines := [], runDirFiles := [],
    connect := .ok cliPoolsRaise }

/-- A client where one guarded host call and one guarded per-pool call
fail; discovery succeeds. -/
def cliSomeFail : Client :=
  { Host_getCapabilities := .ok .null
    Host_getStats := .error "stats down"
    Host_getAllVmStats := .ok (.arr [])
    Host_getVMFullList := .ok (.arr [])
    Host_getDeviceList := .ok .null
    Host_hostdevListByCaps := .ok .null
    Host_getAllTasksInfo := .ok (.obj [])
    Host_getAllTasksStatuses := .ok (.obj [])
    Host_getConnectedStoragePools := .ok ["p1", "p2"]
    StoragePool_getSpmStatus := fun p =>
      if p = "p1" then .error "spm lookup failed" else .ok .null
    Host_getStorageDomains := fun _ => .ok ["sd1", "sd2"] }

def envSomeFail : Env :=
  { logsize := none, dumpVolumeChains := false, pgrepLines := [], runDirFiles := [],
    connect := .ok cliSomeFail }

def envConnFail : Env :=
  { logsize := none, dumpVolumeChains := false, pgrepLines := [], runDirFiles := [],
    connect := .error "no vdsm" }

/-- The part of the pre-connect phase that follows the forbidden-path
declarations. -/
def preTail (env : Env) : List Event :=
  [.extOutput "service vdsmd status",
   .copySpec "/tmp/vds_installer*",
   .copySpec "/tmp/vds_bootstrap*",
   .copySpec "/etc/vdsm/*"]
  ++ [logCopyEvent env.logsize]
  ++ addVdsmRunDir env.runDirFiles
  ++ [.copySpec "/usr/libexec/vdsm/hooks",
      .copySpec "/var/lib/vdsm",
      .copySpec "/var/log/ovirt.log",
      .copySpec "/var/log/sanlock.log"]
  ++ procEvents env.pgrepLines
  ++ extCmdEvents

def envRunDir : Env :=
  { logsize := none, dumpVolumeChains := false, pgrepLines := [],
    runDirFiles := [{ path := "/var/run/vdsm/payload.vfd", isSock := false },
                    { path := "/var/run/vdsm/vdsmd.log", isSock := false }],
    connect := .error "down" }

/-- An archival request that targets the growing log directory
`/var/log/vdsm/*`. -/
def isVdsmLogEvent : Event → Bool
  | .copySpec p => p == "/var/log/vdsm/*"
  | .copySpecLimit p _ => p == "/var/log/vdsm/*"
  | _ => false

def envLogCapped : Env :=
  { logsize := some 50, dumpVolumeChains := false, pgrepLines := [],
    runDirFiles := [{ path := "/var/run/vdsm/vdsmd.pid", isSock := false }],
    connect := .error "down" }

/-! ### Round-trip: the deserializer inverts the serializer -/

theorem charValid (c : Char) :
    c.toNat < 0xd800 ∨ (0xdfff < c.toNat ∧ c.toNat < 0x110000) := c.valid

theorem hexDigitVal_hexDigitChar : ∀ n, n < 16 → hexDigitVal (hexDigitChar n) = some n := by
  decide

theorem hex4Val_hex4 (n : Nat) (h : n < 0x10000) :
    hex4Val (hexDigitChar (n / 4096 % 16)) (hexDigitChar (n / 256 % 16))
      (hexDigitChar (n / 16 % 16)) (hexDigitChar (n % 16)) = some n := by
  rw [hex4Val,
    hexDigitVal_hexDigitChar _ (Nat.mod_lt _ (by omega)),
    hexDigitVal_hexDigitChar _ (Nat.mod_lt _ (by omega)),
    hexDigitVal_hexDigitChar _ (Nat.mod_lt _ (by omega)),
    hexDigitVal_hexDigitChar _ (Nat.mod_lt _ (by omega))]
  exact congrArg some (by omega)

theorem scanHex4_hex4 (n : Nat) (cs : List Char) :
    scanHex4 (hex4 n ++ cs) = some (n % 0x10000, cs) := by
  simp only [hex4, List.cons_append, List.nil_append, scanHex4]
  rw [show n / 4096 % 16 = n % 0x10000 / 4096 % 16 by omega,
    show n / 256 % 16 = n % 0x10000 / 256 % 16 by omega,
    show n / 16 % 16 = n % 0x10000 / 16 % 16 by omega,
    show n % 16 = n % 0x10000 % 16 by omega,
    hex4Val_hex4 _ (by omega)]
  rfl

theorem scanUnicode_bmp (c : Char) (h : c.toNat < 0x10000) (cs : List Char) :
    scanUnicode (hex4 c.toNat ++ cs) = some (c, cs) := by
  have hval := charValid c
  rw [scanUnicode.eq_def, scanHex4_hex4, Nat.mod_eq_of_lt h]
  simp only []
  rw [if_neg (by omega), if_neg (by omega), Char.ofNat_toNat]

theorem scanUnicode_astral (c : Char) (h : ¬ c.toNat < 0x10000) (cs : List Char) :
    scanUnicode (hex4 (0xd800 + (c.toNat - 0x10000) / 0x400) ++
      '\\' :: 'u' :: (hex4 (0xdc00 + (c.toNat - 0x10000) % 0x400) ++ cs)) = some (c, cs) := by
  have hval := charValid c
  have hk : c.toNat - 0x10000 < 0x100000 := by omega
  rw [scanUnicode.eq_def, scanHex4_hex4, Nat.mod_eq_of_lt (by omega)]
  simp only []
  rw [if_pos (by constructor <;> omega : 0xd800 ≤ 0xd800 + (c.toNat - 0x10000) / 0x400 ∧
        0xd800 + (c.toNat - 0x10000) / 0x400 ≤ 0xdbff)]
  rw [scanHex4_hex4, Nat.mod_eq_of_lt (by omega)]
  simp only []
  rw [if_pos (by constructor <;> omega : 0xdc00 ≤ 0xdc00 + (c.toNat - 0x10000) % 0x400 ∧
        0xdc00 + (c.toNat - 0x10000) % 0x400 ≤ 0xdfff)]
  have hcomb : 0x10000 + (0xd800 + (c.toNat - 0x10000) / 0x400 - 0xd800) * 0x400 +
      (0xdc00 + (c.toNat - 0x10000) % 0x400 - 0xdc00) = c.toNat := by
    have := Nat.div_add_mod (c.toNat - 0x10000) 0x400
    omega
  rw [hcomb, Char.ofNat_toNat]

theorem scanStr_esc_step (c : Char) (fu : Nat) (tail acc : List Char) :
    scanStr (fu + 1) (escChar c ++ tail) acc = scanStr fu tail (c :: acc) := by
  by_cases h1 : c = '"'
  · subst h1; simp [escChar, scanStr, escCode]
  by_cases h2 : c = '\\'
  · subst h2; simp [escChar, scanStr, escCode]
  by_cases h3 : c = '\x08'
  · subst h3; simp [escChar, scanStr, escCode]
  by_cases h4 : c = '\x0c'
  · subst h4; simp [escChar, scanStr, escCode]
  by_cases h5 : c = '\n'
  · subst h5; simp [escChar, scanStr, escCode]
  by_cases h6 : c = '\x0d'
  · subst h6; simp [escChar, scanStr, escCode]
  by_cases h7 : c = '\t'
  · subst h7; simp [escChar, scanStr, escCode]
  by_cases h8 : c.toNat < 0x20 ∨ 0x7e < c.toNat
  · rw [escChar, if_neg h1, if_neg h2, if_neg h3, if_neg h4, if_neg h5, if_neg h6, if_neg h7,
      if_pos h8]
    by_cases h9 : c.toNat < 0x10000
    · rw [if_pos h9]
      rw [show ('\\' :: 'u' :: hex4 c.toNat) ++ tail = '\\' :: 'u' :: (hex4 c.toNat ++ tail)
        from rfl]
      rw [scanStr.eq_def]
      simp [scanUnicode_bmp c h9 tail]
    · rw [if_neg h9]
      rw [show ('\\' :: 'u' :: hex4 (0xd800 + (c.toNat - 0x10000) / 0x400) ++
            '\\' :: 'u' :: hex4 (0xdc00 + (c.toNat - 0x10000) % 0x400)) ++ tail =
          '\\' :: 'u' :: (hex4 (0xd800 + (c.toNat - 0x10000) / 0x400) ++
            '\\' :: 'u' :: (hex4 (0xdc00 + (c.toNat - 0x10000) % 0x400) ++ tail)) by
        simp]
      rw [scanStr.eq_def]
      simp [scanUnicode_astral c h9 tail]
  · rw [escChar, if_neg h1, if_neg h2, if_neg h3, if_neg h4, if_neg h5, if_neg h6, if_neg h7,
      if_neg h8]
    simp only [List.singleton_append]
    rw [scanStr.eq_def]
    simp only [if_neg h1, if_neg h2]

theorem scanStr_escChars (l : List Char) :
    ∀ fu acc rest, l.length < fu →
      scanStr fu (escChars l ++ '"' :: rest) acc = some (acc.reverse ++ l, rest) := by
  induction l with
  | nil =>
    intro fu acc rest hfu
    match fu, hfu with
    | fu + 1, _ =>
      simp [escChars, scanStr]
  | cons c l ih =>
    intro fu acc rest hfu
    match fu, hfu with
    | fu + 1, hfu =>
      rw [escChars, List.append_assoc, scanStr_esc_step, ih fu (c :: acc) rest (by
        simpa using Nat.lt_of_succ_lt_succ hfu)]
      simp

theorem length_le_escChars (l : List Char) : l.length ≤ (escChars l).length := by
  induction l with
  | nil => simp [escChars]
  | cons c l ih =>
    have h1 : 1 ≤ (escChar c).length := by
      rw [escChar]
      split_ifs <;> simp [hex4]
    simp only [escChars, List.length_append, List.length_cons]
    omega

theorem digitChar_isDigit : ∀ n, n < 10 → (Char.ofNat (48 + n)).isDigit = true := by decide

theorem digitChar_toNat : ∀ n, n < 10 → (Char.ofNat (48 + n)).toNat = 48 + n := by decide

theorem natChars_digits (n : Nat) : ∀ c ∈ natChars n, c.isDigit = true := by
  induction n using Nat.strong_induction_on with
  | _ n ih =>
    rw [natChars]
    split_ifs with h
    · intro c hc
      simp only [List.mem_singleton] at hc
      subst hc
      exact digitChar_isDigit n h
    · intro c hc
      rcases List.mem_append.mp hc with h1 | h2
      · exact ih (n / 10) (by omega) c h1
      · simp only [List.mem_singleton] at h2
        subst h2
        exact digitChar_isDigit (n % 10) (by omega)

theorem natChars_ne_nil (n : Nat) : natChars n ≠ [] := by
  rw [natChars]
  split_ifs <;> simp

theorem digitsVal_natChars (n : Nat) : ∀ a, digitsVal a (natChars n) = a * 10 ^ (natChars n).length + n := by
  induction n using Nat.strong_induction_on with
  | _ n ih =>
    intro a
    rw [natChars]
    split_ifs with h
    · have hc : (Char.ofNat (48 + n)).toNat = 48 + n := digitChar_toNat n h
      simp [digitsVal, hc]
      ring
    · have hlt : n / 10 < n := by omega
      have hm : (Char.ofNat (48 + n % 10)).toNat = 48 + n % 10 :=
        digitChar_toNat (n % 10) (by omega)
      simp only [digitsVal, List.foldl_append, List.foldl_cons, List.foldl_nil,
        List.length_append, List.length_cons, List.length_nil]
      rw [show List.foldl (fun a c => 10 * a + (c.toNat - 48)) a (natChars (n / 10)) =
          digitsVal a (natChars (n / 10)) from rfl, ih _ hlt a, hm]
      have := Nat.div_add_mod n 10
      rw [pow_succ]
      ring_nf
      omega

theorem takeWhile_append_eq (p : Char → Bool) (xs : List Char) :
    ∀ rest, (∀ c ∈ xs, p c = true) → (∀ c, rest.head? = some c → p c = false) →
      (xs ++ rest).takeWhile p = xs ∧ (xs ++ rest).dropWhile p = rest := by
  induction xs with
  | nil =>
    intro rest _ hrest
    match rest with
    | [] => simp
    | r :: rs => simp [List.takeWhile, List.dropWhile, hrest r rfl]
  | cons x xs ih =>
    intro rest hxs hrest
    have hx : p x = true := hxs x (by simp)
    have := ih rest (fun c hc => hxs c (by simp [hc])) hrest
    simp [List.takeWhile, List.dropWhile, hx, this.1, this.2]

theorem scanNat_natChars (n : Nat) (rest : List Char)
    (hrest : ∀ c, rest.head? = some c → c.isDigit = false) :
    scanNat (natChars n ++ rest) = some (n, rest) := by
  obtain ⟨h1, h2⟩ := takeWhile_append_eq Char.isDigit (natChars n) rest (natChars_digits n) hrest
  rw [scanNat]
  simp only [h1, h2]
  rw [if_neg (by simpa [List.isEmpty_iff] using natChars_ne_nil n)]
  have := digitsVal_natChars n 0
  simp only [digitsVal] at this
  rw [show List.foldl (fun a c => 10 * a + (c.toNat - 48)) 0 (natChars n) =
      digitsVal 0 (natChars n) from rfl, digitsVal_natChars n 0]
  simp

theorem delimOk_nil : delimOk [] := by
  intro c hc
  simp at hc

theorem delimOk_not_digit (rest : List Char) (hd : delimOk rest) :
    ∀ c, rest.head? = some c → c.isDigit = false := by
  intro c hc
  rcases hd c hc with h | h | h <;> subst h <;> decide

theorem digit_not_lit (c : Char) (h : c.isDigit = true) :
    c ≠ 'n' ∧ c ≠ 't' ∧ c ≠ 'f' ∧ c ≠ '"' ∧ c ≠ '[' ∧ c ≠ '\x7b' ∧ c ≠ '-' := by
  refine ⟨?_, ?_, ?_, ?_, ?_, ?_, ?_⟩ <;> rintro rfl <;> revert h <;> decide

theorem parseVal_num (fu : Nat) (n : Int) (rest : List Char) (hd : delimOk rest) :
    parseVal (fu + 1) (intChars n ++ rest) = some (Json.num n, rest) := by
  by_cases hneg : n < 0
  · rw [intChars, if_pos hneg, List.cons_append, parseVal.eq_def]
    simp only [if_neg (show ¬ ('-' : Char) = 'n' by decide),
      if_neg (show ¬ ('-' : Char) = 't' by decide),
      if_neg (show ¬ ('-' : Char) = 'f' by decide),
      if_neg (show ¬ ('-' : Char) = '"' by decide),
      if_neg (show ¬ ('-' : Char) = '[' by decide),
      if_neg (show ¬ ('-' : Char) = '\x7b' by decide),
      if_pos (show ('-' : Char) = '-' from rfl)]
    rw [scanNat_natChars _ _ (delimOk_not_digit rest hd)]
    have h2 : (-(n.natAbs : Int)) = n := by omega
    simp only [Option.map_some']
    rw [h2]
    simp
  · rw [intChars, if_neg hneg]
    obtain ⟨c, cs, heq⟩ : ∃ c cs, natChars n.toNat = c :: cs := by
      match h : natChars n.toNat, natChars_ne_nil n.toNat with
      | c :: cs, _ => exact ⟨c, cs, rfl⟩
    have hcd : c.isDigit = true := natChars_digits n.toNat c (by rw [heq]; simp)
    obtain ⟨d1, d2, d3, d4, d5, d6, d7⟩ := digit_not_lit c hcd
    rw [heq, List.cons_append, parseVal.eq_def]
    simp only [if_neg d1, if_neg d2, if_neg d3, if_neg d4, if_neg d5, if_neg d6, if_neg d7,
      if_pos hcd]
    rw [show c :: (cs ++ rest) = (c :: cs) ++ rest from rfl, ← heq,
      scanNat_natChars _ _ (delimOk_not_digit rest hd)]
    have : ((n.toNat : Int)) = n := by omega
    simp [this]

theorem jsize_pos (v : Json) : 1 ≤ jsize v := by
  cases v <;> simp [jsize]

theorem dumpChars_head (v : Json) :
    ∃ c cs, dumpChars v = c :: cs ∧ c ≠ ']' ∧ c ≠ '\x7d' := by
  cases v with
  | null => exact ⟨'n', _, rfl, by decide, by decide⟩
  | bool b =>
    cases b
    · exact ⟨'f', _, rfl, by decide, by decide⟩
    · exact ⟨'t', _, rfl, by decide, by decide⟩
  | num n =>
    rw [dumpChars, intChars]
    split_ifs with h
    · exact ⟨'-', _, rfl, by decide, by decide⟩
    · obtain ⟨c, cs, heq⟩ : ∃ c cs, natChars n.toNat = c :: cs := by
        match h2 : natChars n.toNat, natChars_ne_nil n.toNat with
        | c :: cs, _ => exact ⟨c, cs, rfl⟩
      have hcd : c.isDigit = true := natChars_digits n.toNat c (by rw [heq]; simp)
      refine ⟨c, cs, heq, ?_, ?_⟩ <;> rintro rfl <;> revert hcd <;> decide
  | str s => exact ⟨'"', _, rfl, by decide, by decide⟩
  | arr xs =>
    cases xs
    · exact ⟨'[', _, rfl, by decide, by decide⟩
    · exact ⟨'[', _, rfl, by decide, by decide⟩
  | obj kvs =>
    cases kvs
    · exact ⟨'\x7b', _, rfl, by decide, by decide⟩
    · exact ⟨'\x7b', _, rfl, by decide, by decide⟩

theorem delimOk_elems (vs : List Json) (rest : List Char) :
    delimOk (dumpElems vs ++ ']' :: rest) := by
  intro c hc
  cases vs with
  | nil =>
    simp only [dumpElems, List.nil_append, List.head?_cons, Option.some.injEq] at hc
    exact Or.inr (Or.inl hc.symm)
  | cons v vs =>
    simp only [dumpElems, List.cons_append, List.head?_cons, Option.some.injEq] at hc
    exact Or.inl hc.symm

theorem delimOk_members (kvs : List (String × Json)) (rest : List Char) :
    delimOk (dumpMembers kvs ++ '\x7d' :: rest) := by
  intro c hc
  cases kvs with
  | nil =>
    simp only [dumpMembers, List.nil_append, List.head?_cons, Option.some.injEq] at hc
    exact Or.inr (Or.inr hc.symm)
  | cons kv kvs =>
    simp only [dumpMembers, List.cons_append, List.head?_cons, Option.some.injEq] at hc
    exact Or.inl hc.symm

theorem parse_dump (fu : Nat) :
    (∀ v rest, jsize v ≤ fu → delimOk rest →
      parseVal fu (dumpChars v ++ rest) = some (v, rest)) ∧
    (∀ v vs rest, 1 + jsize v + jsizeElems vs ≤ fu → delimOk rest →
      parseElems fu (dumpChars v ++ (dumpElems vs ++ ']' :: rest)) = some (v :: vs, rest)) ∧
    (∀ k v kvs rest, 1 + jsize v + jsizeMembers kvs ≤ fu → delimOk rest →
      parseMembers fu (dumpMember (k, v) ++ (dumpMembers kvs ++ '\x7d' :: rest)) =
        some ((k, v) :: kvs, rest)) := by
  induction fu with
  | zero =>
    refine ⟨?_, ?_, ?_⟩
    · intro v rest hs _
      have := jsize_pos v
      omega
    · intro v vs rest hs _
      omega
    · intro k v kvs rest hs _
      omega
  | succ fu ih =>
    obtain ⟨ihV, ihE, ihM⟩ := ih
    refine ⟨?_, ?_, ?_⟩
    · intro v rest hs hd
      cases v with
      | null => simp [dumpChars, parseVal, expectLit]
      | bool b => cases b <;> simp [dumpChars, parseVal, expectLit]
      | num n =>
        rw [show dumpChars (Json.num n) = intChars n from rfl]
        exact parseVal_num fu n rest hd
      | str s =>
        rw [show dumpChars (Json.str s) ++ rest = '"' :: (escChars s.data ++ '"' :: rest) by
          simp [dumpChars]]
        rw [parseVal.eq_def]
        simp only [if_neg (show ¬ ('"' : Char) = 'n' by decide),
          if_neg (show ¬ ('"' : Char) = 't' by decide),
          if_neg (show ¬ ('"' : Char) = 'f' by decide),
          if_pos (show ('"' : Char) = '"' from rfl), if_true]
        rw [scanStr_escChars s.data _ [] rest (by
          have := length_le_escChars s.data
          simp only [List.length_append, List.length_cons]
          omega)]
        simp
      | arr xs =>
        cases xs with
        | nil => simp [dumpChars, parseVal]
        | cons v vs =>
          simp only [jsize, jsizeElems] at hs
          rw [show dumpChars (Json.arr (v :: vs)) ++ rest =
              '[' :: (dumpChars v ++ (dumpElems vs ++ ']' :: rest)) by
            simp [dumpChars]]
          rw [parseVal.eq_def]
          simp only [if_neg (show ¬ ('[' : Char) = 'n' by decide),
            if_neg (show ¬ ('[' : Char) = 't' by decide),
            if_neg (show ¬ ('[' : Char) = 'f' by decide),
            if_neg (show ¬ ('[' : Char) = '"' by decide),
            if_pos (show ('[' : Char) = '[' from rfl), if_true]
          obtain ⟨c, cs', hv, hne1, _⟩ := dumpChars_head v
          rw [hv, List.cons_append]
          split
          · rename_i heq
            rw [List.cons.injEq] at heq
            exact absurd heq.1 hne1
          · rw [← List.cons_append, ← hv, ihE v vs rest (by omega) hd]
            rfl
      | obj kvs =>
        cases kvs with
        | nil => simp [dumpChars, parseVal]
        | cons kv kvs =>
          obtain ⟨k, v⟩ := kv
          simp only [jsize, jsizeMembers] at hs
          rw [show dumpChars (Json.obj ((k, v) :: kvs)) ++ rest =
              '\x7b' :: (dumpMember (k, v) ++ (dumpMembers kvs ++ '\x7d' :: rest)) by
            simp [dumpChars]]
          rw [parseVal.eq_def]
          simp only [if_neg (show ¬ ('\x7b' : Char) = 'n' by decide),
            if_neg (show ¬ ('\x7b' : Char) = 't' by decide),
            if_neg (show ¬ ('\x7b' : Char) = 'f' by decide),
            if_neg (show ¬ ('\x7b' : Char) = '"' by decide),
            if_neg (show ¬ ('\x7b' : Char) = '[' by decide),
            if_pos (show ('\x7b' : Char) = '\x7b' from rfl), if_true]
          have hm : ∃ c cs, dumpMember (k, v) = c :: cs ∧ c ≠ '\x7d' :=
            ⟨'"', _, rfl, by decide⟩
          obtain ⟨c, cs', hv, hne⟩ := hm
          rw [hv, List.cons_append]
          split
          · rename_i heq
            rw [List.cons.injEq] at heq
            exact absurd heq.1 hne
          · rw [← List.cons_append, ← hv, ihM k v kvs rest (by omega) hd]
            rfl
    · intro v vs rest hs hd
      have hv1 := jsize_pos v
      rw [parseElems.eq_def]
      simp only []
      rw [ihV v (dumpElems vs ++ ']' :: rest) (by omega) (delimOk_elems vs rest)]
      cases vs with
      | nil => simp [dumpElems]
      | cons v2 vs' =>
        simp only [jsizeElems] at hs
        simp only [dumpElems, List.cons_append, List.append_assoc]
        simp only [skipSp]
        rw [ihE v2 vs' rest (by omega) hd]
    · intro k v kvs rest hs hd
      have hv1 := jsize_pos v
      rw [show dumpMember (k, v) ++ (dumpMembers kvs ++ '\x7d' :: rest) =
          '"' :: (escChars k.data ++ '"' ::
            (':' :: ' ' :: (dumpChars v ++ (dumpMembers kvs ++ '\x7d' :: rest)))) by
        simp [dumpMember]]
      rw [parseMembers.eq_def]
      simp only []
      rw [scanStr_escChars k.data _ [] _ (by
        have := length_le_escChars k.data
        simp only [List.length_append, List.length_cons]
        omega)]
      simp only [List.reverse_nil, List.nil_append, skipSp]
      rw [ihV v (dumpMembers kvs ++ '\x7d' :: rest) (by omega) (delimOk_members kvs rest)]
      cases kvs with
      | nil => simp [dumpMembers]
      | cons kv2 kvs' =>
        obtain ⟨k2, v2⟩ := kv2
        simp only [jsizeMembers] at hs
        simp only [dumpMembers, List.cons_append, List.append_assoc]
        rw [ihM k2 v2 kvs' rest (by omega) hd]

mutual

theorem jsize_le_len : ∀ v : Json, jsize v ≤ (dumpChars v).length
  | .null => by simp [jsize, dumpChars]
  | .bool b => by cases b <;> simp [jsize, dumpChars]
  | .num n => by
    have h : natChars n.natAbs ≠ [] := natChars_ne_nil _
    have h2 : natChars n.toNat ≠ [] := natChars_ne_nil _
    simp only [jsize, dumpChars, intChars]
    split_ifs
    · simp
    · exact Nat.one_le_iff_ne_zero.mpr (by simpa using h2)
  | .str s => by simp [jsize, dumpChars]
  | .arr [] => by simp [jsize, jsizeElems, dumpChars]
  | .arr (v :: vs) => by
    have h1 := jsize_le_len v
    have h2 := jsizeElems_le_len vs
    simp only [jsize, jsizeElems, dumpChars, List.length_append, List.length_cons]
    omega
  | .obj [] => by simp [jsize, jsizeMembers, dumpChars]
  | .obj ((k, v) :: kvs) => by
    have h1 := jsize_le_len v
    have h2 := jsizeMembers_le_len kvs
    simp only [jsize, jsizeMembers, dumpChars, dumpMember, List.length_append, List.length_cons]
    omega

theorem jsizeElems_le_len : ∀ vs : List Json, jsizeElems vs ≤ (dumpElems vs).length
  | [] => by simp [jsizeElems, dumpElems]
  | v :: vs => by
    have h1 := jsize_le_len v
    have h2 := jsizeElems_le_len vs
    simp only [jsizeElems, dumpElems, List.length_append, List.length_cons]
    omega

theorem jsizeMembers_le_len :
    ∀ kvs : List (String × Json), jsizeMembers kvs ≤ (dumpMembers kvs).length
  | [] => by simp [jsizeMembers, dumpMembers]
  | (k, v) :: kvs => by
    have h1 := jsize_le_len v
    have h2 := jsizeMembers_le_len kvs
    simp only [jsizeMembers, dumpMembers, dumpMember, List.length_append, List.length_cons]
    omega

end

/-- The serialization round-trip: deserializing a serialized value yields
exactly that value. -/
theorem loads_dumps (v : Json) : loads (Json.dumps v) = some v := by
  have hb : jsize v ≤ (dumpChars v).length + 1 := by
    have := jsize_le_len v
    omega
  have h := (parse_dump ((dumpChars v).length + 1)).1 v [] hb delimOk_nil
  rw [List.append_nil] at h
  rw [loads, show jfuel (Json.dumps v) = (dumpChars v).length + 1 from rfl,
    show (Json.dumps v).data = dumpChars v from rfl, h]

/-! ### Segment shape lemmas -/

theorem collectVdsmCommand_shape (name : String) (call : Except String Json) :
    ∃ content, collectVdsmCommand name call = .stringAsFile content name := by
  cases call <;> exact ⟨_, rfl⟩

theorem preTrace_shape (env : Env) :
    ∀ e ∈ preTrace env,
      (∃ p, e = .forbiddenPath p) ∨ (∃ p, e = .copySpec p) ∨
      (∃ p n, e = .copySpecLimit p n) ∨ (∃ c, e = .extOutput c) := by
  intro e he
  simp only [preTrace, List.mem_append, List.mem_cons, List.not_mem_nil, or_false,
    forbiddenEvents, extCmdEvents] at he
  rcases he with ((((((h | h | h) | (h | h | h | h)) | h) | h) | (h | h | h | h)) | h) | h
  · exact Or.inl ⟨_, h⟩
  · exact Or.inl ⟨_, h⟩
  · exact Or.inl ⟨_, h⟩
  · exact Or.inr (Or.inr (Or.inr ⟨_, h⟩))
  · exact Or.inr (Or.inl ⟨_, h⟩)
  · exact Or.inr (Or.inl ⟨_, h⟩)
  · exact Or.inr (Or.inl ⟨_, h⟩)
  · subst h
    rw [logCopyEvent.eq_def]
    cases env.logsize
    · exact Or.inr (Or.inl ⟨_, rfl⟩)
    · exact Or.inr (Or.inr (Or.inl ⟨_, _, rfl⟩))
  · simp only [addVdsmRunDir, List.mem_filterMap] at h
    obtain ⟨f, _, hf⟩ := h
    by_cases hc : (!(strEnds f.path ".vfd") && !(strEnds f.path "/isoUploader") &&
        !(strEnds f.path "/storage") && !f.isSock) = true
    · rw [if_pos hc] at hf
      exact Or.inr (Or.inl ⟨_, (Option.some.injEq _ _ ▸ hf).symm⟩)
    · rw [if_neg hc] at hf
      cases hf
  · exact Or.inr (Or.inl ⟨_, h⟩)
  · exact Or.inr (Or.inl ⟨_, h⟩)
  · exact Or.inr (Or.inl ⟨_, h⟩)
  · exact Or.inr (Or.inl ⟨_, h⟩)
  · simp only [procEvents, List.mem_flatMap, List.mem_cons, List.not_mem_nil, or_false] at h
    obtain ⟨line, _, h | h | h⟩ := h <;> exact Or.inr (Or.inl ⟨_, h⟩)
  · rcases h with h | h | h | h | h | h | h | h | h | h | h | h <;>
      exact Or.inr (Or.inr (Or.inr ⟨_, h⟩))

theorem remoteTail_shape (env : Env) (cli : Client) :
    ∀ e ∈ (remoteTail env cli).1,
      (∃ c n, e = .stringAsFile c n) ∨ (∃ c, e = .extOutput c) := by
  have hfan : ∀ pools, ∀ e ∈ poolFanout cli pools, ∃ c n, e = Event.stringAsFile c n := by
    intro pools e he
    simp only [poolFanout, List.mem_map] at he
    obtain ⟨pool, _, hpe⟩ := he
    obtain ⟨content, hc⟩ :=
      collectVdsmCommand_shape ("StoragePool.getSpmStatus " ++ pool)
        (cli.StoragePool_getSpmStatus pool)
    exact ⟨content, _, by rw [← hpe, hc]⟩
  intro e he
  rw [remoteTail] at he
  split at he
  · simp at he
  · rename_i pools _
    simp only [] at he
    split at he
    · split at he
      · exact Or.inl (hfan pools e he)
      · simp only [List.mem_append] at he
        rcases he with he | he
        · exact Or.inl (hfan pools e he)
        · simp only [List.mem_map] at he
          obtain ⟨sd, _, hsde⟩ := he
          exact Or.inr ⟨_, hsde.symm⟩
    · exact Or.inl (hfan pools e he)

theorem hostEvents_shape (cli : Client) :
    ∀ e ∈ hostEvents cli, ∃ c n, e = .stringAsFile c n := by
  intro e he
  simp only [hostEvents, List.mem_cons, List.not_mem_nil, or_false] at he
  rcases he with h | h | h | h | h | h | h | h <;>
    · subst h
      obtain ⟨c, hc⟩ := collectVdsmCommand_shape _ _
      exact ⟨c, _, hc⟩

theorem countP_eq_zero_of (p : Event → Bool) (l : List Event) (h : ∀ e ∈ l, p e = false) :
    l.countP p = 0 := by
  rw [List.countP_eq_zero]
  intro e he
  simp [h e he]

theorem entryName_collect (name : String) (call : Except String Json) :
    entryName (collectVdsmCommand name call) = some name := by
  cases call <;> rfl

theorem entryNames_preTrace (env : Env) : entryNames (preTrace env) = [] := by
  rw [entryNames, List.filterMap_eq_nil_iff]
  intro e he
  rcases preTrace_shape env e he with ⟨p, h⟩ | ⟨p, h⟩ | ⟨p, n, h⟩ | ⟨c, h⟩ <;> subst h <;> rfl

theorem entryNames_hostEvents (cli : Client) : entryNames (hostEvents cli) = hostNames := by
  simp [hostEvents, entryNames, List.filterMap_cons, entryName_collect, hostNames]

theorem entryNames_poolFanout (cli : Client) (pools : List String) :
    entryNames (poolFanout cli pools) =
      pools.map fun p => "StoragePool.getSpmStatus " ++ p := by
  induction pools with
  | nil => rfl
  | cons p ps ih =>
    simp only [poolFanout, List.map_cons, entryNames, List.filterMap_cons, entryName_collect]
    simpa [entryNames, poolFanout] using ih

theorem entryNames_dumpCmds (sds : List String) :
    entryNames (sds.map fun sd => Event.extOutput ("vdsm-tool dump-volume-chains " ++ sd)) =
      [] := by
  rw [entryNames, List.filterMap_eq_nil_iff]
  intro e he
  simp only [List.mem_map] at he
  obtain ⟨sd, _, h⟩ := he
  subst h
  rfl

/-- C1 (amended): provided the unguarded discovery calls do not raise, no
failure of any guarded action aborts the run: `setup` completes without a
propagating exception and stores exactly one artifact per attempted guarded
action, keyed by its declared name. -/
theorem setup_completes_one_entry_per_action (env : Env) (h : discoveriesOk env) :
    (setup env).2 = none ∧ entryNames (setup env).1 = attemptedEntryNames env := by
  cases henv : env.connect with
  | error e =>
    rw [setup, henv]
    simp only [attemptedEntryNames, henv]
    refine ⟨by trivial, ?_⟩
    rw [entryNames, List.filterMap_append]
    rw [show List.filterMap entryName (preTrace env) = entryNames (preTrace env) from rfl,
      entryNames_preTrace]
    rfl
  | ok cli =>
    rw [discoveriesOk, henv] at h
    obtain ⟨⟨pools, hp⟩, hdv⟩ := h
    rw [setup, henv]
    simp only [attemptedEntryNames, henv, hp]
    have htail : (remoteTail env cli).1 =
        poolFanout cli pools ++
          (remoteTail env cli).1.drop (poolFanout cli pools).length ∧
        (remoteTail env cli).2 = none ∧
        entryNames ((remoteTail env cli).1.drop (poolFanout cli pools).length) = [] := by
      rw [remoteTail, hp]
      cases hb : env.dumpVolumeChains with
      | false =>
        simp only [Bool.false_eq_true, if_false]
        exact ⟨by simp, by trivial, by simp [entryNames]⟩
      | true =>
        obtain ⟨sds, hsd⟩ := hdv hb
        simp only [if_true, hsd]
        refine ⟨by simp, by trivial, ?_⟩
        rw [List.drop_left]
        exact entryNames_dumpCmds sds
    obtain ⟨ht1, ht2, ht3⟩ := htail
    refine ⟨ht2, ?_⟩
    rw [entryNames, List.filterMap_append, List.filterMap_append]
    rw [show List.filterMap entryName (preTrace env) = entryNames (preTrace env) from rfl,
      entryNames_preTrace]
    rw [show List.filterMap entryName [Event.connectClosed] = [] from rfl]
    rw [List.filterMap_cons]
    rw [show entryName Event.connectAcquired = none from rfl]
    rw [List.filterMap_append]
    rw [show List.filterMap entryName (hostEvents cli) = entryNames (hostEvents cli) from rfl,
      entryNames_hostEvents]
    rw [ht1, List.filterMap_append]
    rw [show List.filterMap entryName (poolFanout cli pools) =
        entryNames (poolFanout cli pools) from rfl, entryNames_poolFanout]
    rw [show List.filterMap entryName
        ((remoteTail env cli).1.drop (poolFanout cli pools).length) =
        entryNames ((remoteTail env cli).1.drop (poolFanout cli pools).length) from rfl, ht3]
    simp

/-- C1 counterexample: when the unguarded pool-discovery call raises, the
exception propagates out of `setup` — the run does not complete cleanly, so
a single action's failure can abort the run. -/
theorem setup_aborts_on_discovery_raise :
    (setup envPoolsRaise).2 = some "pools exploded" := rfl

theorem setup_completes_one_entry_per_action_witness :
    discoveriesOk envSomeFail ∧
    ((setup envSomeFail).2 = none ∧
      entryNames (setup envSomeFail).1 = attemptedEntryNames envSomeFail) := by
  have hdo : discoveriesOk envSomeFail := ⟨⟨["p1", "p2"], rfl⟩, fun h => absurd h (by decide)⟩
  exact ⟨hdo, setup_completes_one_entry_per_action envSomeFail hdo⟩

/-- C2: for every guarded remote call, exactly one artifact is stored under
the call's declared name — `json.dumps` of the result on success, `str(e)`
on an exception — and `collectVdsmCommand` itself never raises (it is a
total function). -/
theorem collectVdsmCommand_spec (name : String) (call : Except String Json) :
    (∀ v, call = .ok v →
      collectVdsmCommand name call = .stringAsFile (Json.dumps v) name) ∧
    (∀ e, call = .error e →
      collectVdsmCommand name call = .stringAsFile e name) ∧
    (∃ content, collectVdsmCommand name call = .stringAsFile content name) := by
  refine ⟨?_, ?_, collectVdsmCommand_shape name call⟩
  · intro v hv
    rw [hv]
    rfl
  · intro e he
    rw [he]
    rfl

theorem collectVdsmCommand_spec_witness :
    collectVdsmCommand "Host.getStats" (Except.ok (Json.num 3)) =
      Event.stringAsFile "3" "Host.getStats" ∧
    collectVdsmCommand "Host.getStats" (Except.error "connection reset") =
      Event.stringAsFile "connection reset" "Host.getStats" := by
  constructor
  · have h := (collectVdsmCommand_spec "Host.getStats" (Except.ok (Json.num 3))).1
      (Json.num 3) rfl
    rw [show Json.dumps (Json.num 3) = "3" from by
      rw [Json.dumps, dumpChars, intChars, if_neg (by omega), natChars]
      decide] at h
    exact h
  · exact (collectVdsmCommand_spec "Host.getStats" (Except.error "connection reset")).2.1
      "connection reset" rfl

/-- C3: a successful remote call's artifact is the serialization of its
result, and deserializing that artifact yields exactly the original
structured value. -/
theorem remote_call_roundtrip (name : String) (v : Json) :
    collectVdsmCommand name (Except.ok v) = Event.stringAsFile (Json.dumps v) name ∧
    loads (Json.dumps v) = some v :=
  ⟨rfl, loads_dumps v⟩

/-- C4: when `client.connect` raises, the trace is exactly the copy/command
phase followed by one error artifact keyed `client.connect`; no exception
propagates and no remote-call artifact exists. -/
theorem connect_failure_single_entry (env : Env) (e : String)
    (hc : env.connect = Except.error e) :
    (setup env).1 =
      preTrace env ++
        [.stringAsFile ("Cannot connect to vdsm: " ++ e) "client.connect"] ∧
    (setup env).2 = none ∧
    entryNames (setup env).1 = ["client.connect"] := by
  rw [setup, hc]
  refine ⟨rfl, rfl, ?_⟩
  rw [entryNames, List.filterMap_append,
    show List.filterMap entryName (preTrace env) = entryNames (preTrace env) from rfl,
    entryNames_preTrace]
  rfl

theorem connect_failure_single_entry_witness :
    envConnFail.connect = Except.error "no vdsm" ∧
    ((setup envConnFail).2 = none ∧
      entryNames (setup envConnFail).1 = ["client.connect"]) :=
  ⟨rfl, (connect_failure_single_entry envConnFail "no vdsm" rfl).2⟩

/-- C5: when the connection is established, it is acquired exactly once and
closed exactly once, on every path — `utils.closing` closes it even when a
discovery call raises mid-run. -/
theorem connection_scoped (env : Env) (cli : Client) (hc : env.connect = Except.ok cli) :
    (setup env).1.countP isConnAcquired = 1 ∧
    (setup env).1.countP isConnClosed = 1 := by
  rw [setup, hc]
  have hpre : ∀ p : Event → Bool,
      (∀ s, p (.forbiddenPath s) = false) → (∀ s, p (.copySpec s) = false) →
      (∀ s n, p (.copySpecLimit s n) = false) → (∀ s, p (.extOutput s) = false) →
      (preTrace env).countP p = 0 := by
    intro p h1 h2 h3 h4
    refine countP_eq_zero_of p _ ?_
    intro e he
    rcases preTrace_shape env e he with ⟨s, h⟩ | ⟨s, h⟩ | ⟨s, n, h⟩ | ⟨s, h⟩ <;> subst h
    · exact h1 s
    · exact h2 s
    · exact h3 s n
    · exact h4 s
  have hhost : ∀ p : Event → Bool, (∀ c n, p (.stringAsFile c n) = false) →
      (hostEvents cli).countP p = 0 := by
    intro p h
    refine countP_eq_zero_of p _ ?_
    intro e he
    obtain ⟨c, n, hcn⟩ := hostEvents_shape cli e he
    subst hcn
    exact h c n
  have htail : ∀ p : Event → Bool, (∀ c n, p (.stringAsFile c n) = false) →
      (∀ c, p (.extOutput c) = false) → (remoteTail env cli).1.countP p = 0 := by
    intro p h1 h2
    refine countP_eq_zero_of p _ ?_
    intro e he
    rcases remoteTail_shape env cli e he with ⟨c, n, h⟩ | ⟨c, h⟩ <;> subst h
    · exact h1 c n
    · exact h2 c
  constructor
  · simp only [List.countP_append, List.countP_cons,
      hpre isConnAcquired (fun _ => rfl) (fun _ => rfl) (fun _ _ => rfl) (fun _ => rfl),
      hhost isConnAcquired (fun _ _ => rfl),
      htail isConnAcquired (fun _ _ => rfl) (fun _ => rfl)]
    rfl
  · simp only [List.countP_append, List.countP_cons,
      hpre isConnClosed (fun _ => rfl) (fun _ => rfl) (fun _ _ => rfl) (fun _ => rfl),
      hhost isConnClosed (fun _ _ => rfl),
      htail isConnClosed (fun _ _ => rfl) (fun _ => rfl)]
    rfl

theorem connection_scoped_witness :
    envPoolsRaise.connect = Except.ok cliPoolsRaise ∧
    (setup envPoolsRaise).2 ≠ none ∧
    ((setup envPoolsRaise).1.countP isConnAcquired = 1 ∧
      (setup envPoolsRaise).1.countP isConnClosed = 1) := by
  refine ⟨rfl, by simp [setup, remoteTail, envPoolsRaise, cliPoolsRaise], ?_⟩
  exact connection_scoped envPoolsRaise cliPoolsRaise rfl

theorem str_ne_of_head_ne (c d : Char) {s t : String} (hs : s.data.head? = some c)
    (ht : t.data.head? = some d) (h : c ≠ d) : s ≠ t := by
  intro heq
  subst heq
  rw [hs] at ht
  exact h (Option.some.inj ht)

theorem str_beq_false_of_head_ne (c d : Char) {s t : String} (hs : s.data.head? = some c)
    (ht : t.data.head? = some d) (h : c ≠ d) : (s == t) = false :=
  beq_eq_false_iff_ne.mpr (str_ne_of_head_ne c d hs ht h)

theorem some_beq_some (a b : String) : (some a == some b) = (a == b) := rfl

theorem str_append_right_inj (s t u : String) : s ++ t = s ++ u ↔ t = u := by
  constructor
  · intro h
    have hd : s.data ++ t.data = s.data ++ u.data := congrArg String.data h
    exact String.ext (List.append_cancel_left hd)
  · intro h
    rw [h]

/-- C6: one `getSpmStatus` artifact per discovered pool, keyed by the
declared-name template and the pool id; one pool's failure does not
suppress sibling entries (the count depends only on the discovered list,
never on the per-pool call outcomes). -/
theorem pool_fanout_entries (env : Env) (cli : Client) (pools : List String)
    (hc : env.connect = Except.ok cli)
    (hp : cli.Host_getConnectedStoragePools = Except.ok pools) (p : String) :
    entryCount ("StoragePool.getSpmStatus " ++ p) (setup env).1 = pools.count p := by
  have hkey : ("StoragePool.getSpmStatus " ++ p).data.head? = some 'S' := rfl
  rw [entryCount, setup, hc]
  have hpre : (preTrace env).countP
      (fun e => entryName e == some ("StoragePool.getSpmStatus " ++ p)) = 0 := by
    refine countP_eq_zero_of _ _ ?_
    intro e he
    rcases preTrace_shape env e he with ⟨s, h⟩ | ⟨s, h⟩ | ⟨s, n, h⟩ | ⟨s, h⟩ <;> subst h <;> rfl
  have hhost : (hostEvents cli).countP
      (fun e => entryName e == some ("StoragePool.getSpmStatus " ++ p)) = 0 := by
    refine countP_eq_zero_of _ _ ?_
    intro e he
    simp only [hostEvents, List.mem_cons, List.not_mem_nil, or_false] at he
    rcases he with h | h | h | h | h | h | h | h <;>
      · subst h
        rw [entryName_collect, some_beq_some]
        exact str_beq_false_of_head_ne 'H' 'S' rfl hkey (by decide)
  have hfan : (poolFanout cli pools).countP
      (fun e => entryName e == some ("StoragePool.getSpmStatus " ++ p)) = pools.count p := by
    rw [poolFanout, List.countP_map, List.count_eq_countP]
    refine List.countP_congr ?_
    intro pool _
    simp only [Function.comp]
    rw [entryName_collect]
    constructor
    · intro h
      have heq : "StoragePool.getSpmStatus " ++ pool = "StoragePool.getSpmStatus " ++ p :=
        eq_of_beq h
      exact beq_iff_eq.mpr ((str_append_right_inj _ _ _).mp heq)
    · intro h
      have : pool = p := eq_of_beq h
      subst this
      exact beq_iff_eq.mpr rfl
  have htail : (remoteTail env cli).1.countP
      (fun e => entryName e == some ("StoragePool.getSpmStatus " ++ p)) =
      pools.count p := by
    rw [remoteTail, hp]
    cases env.dumpVolumeChains with
    | false =>
      simp only [Bool.false_eq_true, if_false]
      exact hfan
    | true =>
      simp only [if_true]
      cases cli.Host_getStorageDomains DATA_DOMAIN with
      | error e => exact hfan
      | ok sds =>
        rw [List.countP_append, hfan]
        have : (sds.map fun sd =>
            Event.extOutput ("vdsm-tool dump-volume-chains " ++ sd)).countP
            (fun e => entryName e == some ("StoragePool.getSpmStatus " ++ p)) = 0 := by
          refine countP_eq_zero_of _ _ ?_
          intro e he
          simp only [List.mem_map] at he
          obtain ⟨sd, _, h⟩ := he
          subst h
          rfl
        omega
  simp only [List.countP_append, List.countP_cons, hpre, hhost, htail]
  simp [entryName]

theorem pool_fanout_entries_witness :
    entryCount ("StoragePool.getSpmStatus " ++ "p1") (setup envSomeFail).1 = 1 ∧
    entryCount ("StoragePool.getSpmStatus " ++ "p2") (setup envSomeFail).1 = 1 := by
  have h1 := pool_fanout_entries envSomeFail cliSomeFail ["p1", "p2"] rfl rfl "p1"
  have h2 := pool_fanout_entries envSomeFail cliSomeFail ["p1", "p2"] rfl rfl "p2"
  rw [show List.count "p1" ["p1", "p2"] = 1 from by decide] at h1
  rw [show List.count "p2" ["p1", "p2"] = 1 from by decide] at h2
  exact ⟨h1, h2⟩

theorem str_ne_of_starts (pre a b : String) (ha : strStarts pre a = true)
    (hb : strStarts pre b = false) : a ≠ b := by
  intro h
  subst h
  exact absurd ha (by simp [hb])

theorem mem_setup_of_mem_pre (env : Env) (e : Event) (h : e ∈ preTrace env) :
    e ∈ (setup env).1 := by
  rw [setup]
  cases env.connect with
  | error msg => exact List.mem_append_left _ h
  | ok cli => exact List.mem_append_left _ (List.mem_append_left _ h)

theorem copy_events_only_pre (env : Env) :
    (∀ p, Event.copySpec p ∈ (setup env).1 → Event.copySpec p ∈ preTrace env) ∧
    (∀ p n, Event.copySpecLimit p n ∈ (setup env).1 →
      Event.copySpecLimit p n ∈ preTrace env) := by
  rw [setup]
  cases env.connect with
  | error msg =>
    constructor
    · intro p h
      rcases List.mem_append.mp h with h | h
      · exact h
      · simp at h
    · intro p n h
      rcases List.mem_append.mp h with h | h
      · exact h
      · simp at h
  | ok cli =>
    constructor
    · intro p h
      rcases List.mem_append.mp h with h | h
      · rcases List.mem_append.mp h with h | h
        · exact h
        · exfalso
          rcases List.mem_cons.mp h with h | h
          · cases h
          · rcases List.mem_append.mp h with h | h
            · obtain ⟨c, n, hh⟩ := hostEvents_shape cli _ h
              cases hh
            · rcases remoteTail_shape env cli _ h with ⟨c, n, hh⟩ | ⟨c, hh⟩ <;> cases hh
      · simp at h
    · intro p n h
      rcases List.mem_append.mp h with h | h
      · rcases List.mem_append.mp h with h | h
        · exact h
        · exfalso
          rcases List.mem_cons.mp h with h | h
          · cases h
          · rcases List.mem_append.mp h with h | h
            · obtain ⟨c, m, hh⟩ := hostEvents_shape cli _ h
              cases hh
            · rcases remoteTail_shape env cli _ h with ⟨c, m, hh⟩ | ⟨c, hh⟩ <;> cases hh
      · simp at h

theorem isPrefixOf_exists (l1 : List Char) :
    ∀ l2, l1.isPrefixOf l2 = true ↔ ∃ t, l1 ++ t = l2 := by
  induction l1 with
  | nil =>
    intro l2
    constructor
    · intro _
      exact ⟨l2, rfl⟩
    · intro _
      cases l2 <;> rfl
  | cons a as ih =>
    intro l2
    cases l2 with
    | nil =>
      constructor
      · intro h
        cases h
      · rintro ⟨t, ht⟩
        cases ht
    | cons b bs =>
      rw [show (a :: as).isPrefixOf (b :: bs) = (a == b && as.isPrefixOf bs) from rfl,
        Bool.and_eq_true, ih bs]
      constructor
      · rintro ⟨hab, t, ht⟩
        exact ⟨t, by rw [List.cons_append, ht, eq_of_beq hab]⟩
      · rintro ⟨t, ht⟩
        rw [List.cons_append] at ht
        injection ht with h1 h2
        exact ⟨beq_iff_eq.mpr h1, t, h2⟩

theorem globMatch_lit_starts (lit : List Char) :
    ∀ pat cs, (∀ c ∈ lit, c ≠ '*') → globMatch (lit ++ pat) cs = true →
      ∃ t, cs = lit ++ t := by
  induction lit with
  | nil =>
    intro pat cs _ _
    exact ⟨cs, rfl⟩
  | cons a as ih =>
    intro pat cs hstar h
    have ha : a ≠ '*' := hstar a (by simp)
    rw [List.cons_append, globMatch.eq_def] at h
    split at h <;> try contradiction
    · rename_i ps heq
      injection heq with h1 _
      exact absurd h1 ha
    · rename_i p ps c cs2 hp heq
      injection heq with h1 h2
      subst h1
      subst h2
      rw [Bool.and_eq_true] at h
      obtain ⟨t, ht⟩ := ih pat cs2 (fun c hc => hstar c (List.mem_cons_of_mem _ hc)) h.2
      refine ⟨t, ?_⟩
      rw [ht, List.cons_append, ← eq_of_beq h.1]

theorem preTrace_eq (env : Env) : preTrace env = forbiddenEvents ++ preTail env := by
  simp only [preTrace, preTail, List.append_assoc]

theorem preTail_no_forbidden (env : Env) :
    ∀ e ∈ preTail env, ∀ q, e ≠ Event.forbiddenPath q := by
  intro e he
  simp only [preTail, List.mem_append, List.mem_cons, List.not_mem_nil, or_false] at he
  rcases he with (((((h | h | h | h) | h) | h) | (h | h | h | h)) | h) | h
  · subst h; intro q heq; cases heq
  · subst h; intro q heq; cases heq
  · subst h; intro q heq; cases heq
  · subst h; intro q heq; cases heq
  · subst h
    rw [logCopyEvent.eq_def]
    cases env.logsize <;> · intro q heq; cases heq
  · simp only [addVdsmRunDir, List.mem_filterMap] at h
    obtain ⟨f, _, hf⟩ := h
    by_cases hc : (!(strEnds f.path ".vfd") && !(strEnds f.path "/isoUploader") &&
        !(strEnds f.path "/storage") && !f.isSock) = true
    · rw [if_pos hc] at hf
      cases Option.some.inj hf
      intro q heq; cases heq
    · rw [if_neg hc] at hf
      cases hf
  · subst h; intro q heq; cases heq
  · subst h; intro q heq; cases heq
  · subst h; intro q heq; cases heq
  · subst h; intro q heq; cases heq
  · simp only [procEvents, List.mem_flatMap, List.mem_cons, List.not_mem_nil, or_false] at h
    obtain ⟨line, _, h | h | h⟩ := h <;> subst h <;> · intro q heq; cases heq
  · simp only [extCmdEvents, List.mem_cons, List.not_mem_nil, or_false] at h
    rcases h with h | h | h | h | h | h | h | h | h | h | h | h <;> subst h <;>
      · intro q heq; cases heq

theorem setup_forbidden_decomp (env : Env) :
    ∃ rest, (setup env).1 = forbiddenEvents ++ rest ∧
      ∀ e ∈ rest, ∀ q, e ≠ Event.forbiddenPath q := by
  rw [setup]
  cases env.connect with
  | error msg =>
    simp only []
    refine ⟨preTail env ++
      [Event.stringAsFile ("Cannot connect to vdsm: " ++ msg) "client.connect"], ?_, ?_⟩
    · rw [preTrace_eq, List.append_assoc]
    · intro e he q
      rcases List.mem_append.mp he with h | h
      · exact preTail_no_forbidden env e h q
      · simp only [List.mem_singleton] at h
        subst h
        intro heq; cases heq
  | ok cli =>
    simp only []
    refine ⟨preTail env ++
      ((Event.connectAcquired :: (hostEvents cli ++ (remoteTail env cli).1)) ++
        [Event.connectClosed]), ?_, ?_⟩
    · rw [preTrace_eq]
      simp only [List.append_assoc]
    · intro e he q
      rcases List.mem_append.mp he with h | h
      · exact preTail_no_forbidden env e h q
      · rcases List.mem_append.mp h with h | h
        · rcases List.mem_cons.mp h with h | h
          · subst h; intro heq; cases heq
          · rcases List.mem_append.mp h with h | h
            · obtain ⟨c, n, hh⟩ := hostEvents_shape cli e h
              subst hh; intro heq; cases heq
            · rcases remoteTail_shape env cli e h with ⟨c, n, hh⟩ | ⟨c, hh⟩ <;>
                · subst hh; intro heq; cases heq
        · simp only [List.mem_singleton] at h
          subst h; intro heq; cases heq

theorem forbidden_match_starts (pat : String) (hpat : pat ∈ forbiddenPats) (p : String)
    (h : globMatch pat.data p.data = true) : strStarts "/etc/pki/" p = true := by
  obtain ⟨rest, hr⟩ : ∃ rest, pat.data = "/etc/pki/".data ++ rest := by
    rcases (show pat = "/etc/pki/vdsm/keys/*" ∨ pat = "/etc/pki/vdsm/libvirt-spice/*-key.*" ∨
        pat = "/etc/pki/libvirt/private/*" by simpa [forbiddenPats] using hpat)
      with rfl | rfl | rfl
    · exact ⟨"vdsm/keys/*".data, rfl⟩
    · exact ⟨"vdsm/libvirt-spice/*-key.*".data, rfl⟩
    · exact ⟨"libvirt/private/*".data, rfl⟩
  rw [hr] at h
  obtain ⟨t, ht⟩ := globMatch_lit_starts "/etc/pki/".data rest p.data (by decide) h
  rw [strStarts, ht]
  exact (isPrefixOf_exists _ _).mpr ⟨t, rfl⟩

theorem not_etcpki_of_varrun (s : String) (h : strStarts "/var/run/vdsm/" s = true) :
    strStarts "/etc/pki/" s = false := by
  obtain ⟨t, ht⟩ := (isPrefixOf_exists _ _).mp h
  rw [strStarts, ← ht]
  rfl

theorem not_etcpki_of_proc (t u : String) :
    strStarts "/etc/pki/" ("/proc/" ++ t ++ u) = false := rfl

/-- C9: the three private-key glob patterns are declared forbidden before
anything else — they are the first three requests of every run and no later
request declares a forbidden path — and no copy request the collector ever
issues matches any of them. -/
theorem forbidden_paths_spec (env : Env) (hs : envSane env) :
    (setup env).1.take 3 = forbiddenEvents ∧
    (∀ e ∈ (setup env).1.drop 3, ∀ q, e ≠ Event.forbiddenPath q) ∧
    (∀ p ∈ copyPaths (setup env).1, ∀ pat ∈ forbiddenPats,
      globMatch pat.data p.data = false) := by
  obtain ⟨rest, hr, hnf⟩ := setup_forbidden_decomp env
  refine ⟨?_, ?_, ?_⟩
  · rw [hr, show (3 : Nat) = forbiddenEvents.length from rfl, List.take_left]
  · rw [hr, show (3 : Nat) = forbiddenEvents.length from rfl, List.drop_left]
    exact hnf
  · intro p hp pat hpat
    have hfalse : strStarts "/etc/pki/" p = false := by
      simp only [copyPaths, List.mem_filterMap] at hp
      obtain ⟨e, he, hf⟩ := hp
      cases e with
      | copySpec q =>
        cases Option.some.inj hf
        have hpre := (copy_events_only_pre env).1 _ he
        cases henv : env.logsize with
        | none =>
          simp [preTrace, forbiddenEvents, extCmdEvents, procEvents, addVdsmRunDir,
            logCopyEvent, henv] at hpre
          rcases hpre with h | h | h | h | ⟨f, hf2, _, hpath⟩ | h | h | h | h |
            ⟨line, _, h | h | h⟩
          · subst h; decide
          · subst h; decide
          · subst h; decide
          · subst h; decide
          · rw [← hpath]
            exact not_etcpki_of_varrun f.path (hs f hf2)
          · subst h; decide
          · subst h; decide
          · subst h; decide
          · subst h; decide
          · subst h; exact not_etcpki_of_proc line.trim "/cmdline"
          · subst h; exact not_etcpki_of_proc line.trim "/status"
          · subst h; exact not_etcpki_of_proc line.trim "/mountstats"
        | some n =>
          simp [preTrace, forbiddenEvents, extCmdEvents, procEvents, addVdsmRunDir,
            logCopyEvent, henv] at hpre
          rcases hpre with h | h | h | ⟨f, hf2, _, hpath⟩ | h | h | h | h |
            ⟨line, _, h | h | h⟩
          · subst h; decide
          · subst h; decide
          · subst h; decide
          · rw [← hpath]
            exact not_etcpki_of_varrun f.path (hs f hf2)
          · subst h; decide
          · subst h; decide
          · subst h; decide
          · subst h; decide
          · subst h; exact not_etcpki_of_proc line.trim "/cmdline"
          · subst h; exact not_etcpki_of_proc line.trim "/status"
          · subst h; exact not_etcpki_of_proc line.trim "/mountstats"
      | copySpecLimit q m =>
        cases Option.some.inj hf
        have hpre := (copy_events_only_pre env).2 _ _ he
        cases henv : env.logsize with
        | none =>
          simp [preTrace, forbiddenEvents, extCmdEvents, procEvents, addVdsmRunDir,
            logCopyEvent, henv] at hpre
        | some n =>
          simp [preTrace, forbiddenEvents, extCmdEvents, procEvents, addVdsmRunDir,
            logCopyEvent, henv] at hpre
          rw [hpre.1]
          decide
      | forbiddenPath q => cases hf
      | extOutput q => cases hf
      | stringAsFile c n => cases hf
      | connectAcquired => cases hf
      | connectClosed => cases hf
    cases hgm : globMatch pat.data p.data with
    | false => rfl
    | true =>
      have hst := forbidden_match_starts pat hpat p hgm
      rw [hfalse] at hst
      cases hst

theorem forbidden_paths_spec_witness :
    envSane envLogCapped ∧ (setup envLogCapped).1.take 3 = forbiddenEvents := by
  have hs : envSane envLogCapped := by
    intro f hf
    simp only [envLogCapped, List.mem_singleton] at hf
    subst hf
    decide
  exact ⟨hs, (forbidden_paths_spec envLogCapped hs).1⟩

/-- C10: a file under `/var/run/vdsm` is requested for copy exactly when it
is not a `.vfd` file, not the `isoUploader` entry, not the `storage` entry,
and not a Unix socket. -/
theorem rundir_copy_iff (env : Env) (hs : envSane env)
    (hnd : (env.runDirFiles.map RunDirFile.path).Nodup)
    (f : RunDirFile) (hf : f ∈ env.runDirFiles) :
    Event.copySpec f.path ∈ (setup env).1 ↔
      (strEnds f.path ".vfd" = false ∧ strEnds f.path "/isoUploader" = false ∧
       strEnds f.path "/storage" = false ∧ f.isSock = false) := by
  constructor
  · intro hmem
    have hpre := (copy_events_only_pre env).1 _ hmem
    have hsf := hs f hf
    cases henv : env.logsize with
    | none =>
      simp [preTrace, forbiddenEvents, extCmdEvents, procEvents, addVdsmRunDir,
        logCopyEvent, henv] at hpre
      rcases hpre with h | h | h | h | ⟨f2, hf2, hcond, hpath⟩ | h | h | h | h |
        ⟨line, _, h | h | h⟩
      · rw [h] at hsf; exact absurd hsf (by decide)
      · rw [h] at hsf; exact absurd hsf (by decide)
      · rw [h] at hsf; exact absurd hsf (by decide)
      · rw [h] at hsf; exact absurd hsf (by decide)
      · have hff : f2 = f := List.inj_on_of_nodup_map hnd hf2 hf hpath
        subst hff
        exact ⟨hcond.1.1.1, hcond.1.1.2, hcond.1.2, hcond.2⟩
      · rw [h] at hsf; exact absurd hsf (by decide)
      · rw [h] at hsf; exact absurd hsf (by decide)
      · rw [h] at hsf; exact absurd hsf (by decide)
      · rw [h] at hsf; exact absurd hsf (by decide)
      · rw [h] at hsf
        rw [show strStarts "/var/run/vdsm/" ("/proc/" ++ line.trim ++ "/cmdline") = false
          from rfl] at hsf
        cases hsf
      · rw [h] at hsf
        rw [show strStarts "/var/run/vdsm/" ("/proc/" ++ line.trim ++ "/status") = false
          from rfl] at hsf
        cases hsf
      · rw [h] at hsf
        rw [show strStarts "/var/run/vdsm/" ("/proc/" ++ line.trim ++ "/mountstats") = false
          from rfl] at hsf
        cases hsf
    | some n =>
      simp [preTrace, forbiddenEvents, extCmdEvents, procEvents, addVdsmRunDir,
        logCopyEvent, henv] at hpre
      rcases hpre with h | h | h | ⟨f2, hf2, hcond, hpath⟩ | h | h | h | h |
        ⟨line, _, h | h | h⟩
      · rw [h] at hsf; exact absurd hsf (by decide)
      · rw [h] at hsf; exact absurd hsf (by decide)
      · rw [h] at hsf; exact absurd hsf (by decide)
      · have hff : f2 = f := List.inj_on_of_nodup_map hnd hf2 hf hpath
        subst hff
        exact ⟨hcond.1.1.1, hcond.1.1.2, hcond.1.2, hcond.2⟩
      · rw [h] at hsf; exact absurd hsf (by decide)
      · rw [h] at hsf; exact absurd hsf (by decide)
      · rw [h] at hsf; exact absurd hsf (by decide)
      · rw [h] at hsf; exact absurd hsf (by decide)
      · rw [h] at hsf
        rw [show strStarts "/var/run/vdsm/" ("/proc/" ++ line.trim ++ "/cmdline") = false
          from rfl] at hsf
        cases hsf
      · rw [h] at hsf
        rw [show strStarts "/var/run/vdsm/" ("/proc/" ++ line.trim ++ "/status") = false
          from rfl] at hsf
        cases hsf
      · rw [h] at hsf
        rw [show strStarts "/var/run/vdsm/" ("/proc/" ++ line.trim ++ "/mountstats") = false
          from rfl] at hsf
        cases hsf
  · intro ⟨h1, h2, h3, h4⟩
    apply mem_setup_of_mem_pre
    have hmem : Event.copySpec f.path ∈ addVdsmRunDir env.runDirFiles := by
      simp only [addVdsmRunDir, List.mem_filterMap]
      refine ⟨f, hf, ?_⟩
      rw [if_pos (by rw [h1, h2, h3, h4]; rfl)]
    rw [preTrace]
    exact List.mem_append_left _ (List.mem_append_left _ (List.mem_append_left _
      (List.mem_append_right _ hmem)))

theorem rundir_copy_iff_witness :
    envSane envRunDir ∧
    Event.copySpec "/var/run/vdsm/vdsmd.log" ∈ (setup envRunDir).1 := by
  have hs : envSane envRunDir := by
    intro f hf
    simp only [envRunDir, List.mem_cons, List.not_mem_nil, or_false] at hf
    rcases hf with h | h <;> subst h <;> decide
  refine ⟨hs, ?_⟩
  have h := (rundir_copy_iff envRunDir hs (by decide)
    { path := "/var/run/vdsm/vdsmd.log", isSock := false } (by simp [envRunDir])).mpr
    (by refine ⟨?_, ?_, ?_, ?_⟩ <;> decide)
  exact h

theorem strStarts_append (p t : String) : strStarts p (p ++ t) = true := by
  rw [strStarts, show (p ++ t).data = p.data ++ t.data from rfl]
  exact (isPrefixOf_exists _ _).mpr ⟨t.data, rfl⟩

theorem proc_path_ne (t u b : String) (hb : strStarts "/proc/" b = false) :
    "/proc/" ++ t ++ u ≠ b := by
  intro h
  have ha : strStarts "/proc/" ("/proc/" ++ t ++ u) = true := by
    have h2 : "/proc/" ++ t ++ u = "/proc/" ++ (t ++ u) := by
      apply String.ext
      rw [show ("/proc/" ++ t ++ u).data = ("/proc/".data ++ t.data) ++ u.data from rfl,
        show ("/proc/" ++ (t ++ u)).data = "/proc/".data ++ (t.data ++ u.data) from rfl,
        List.append_assoc]
    rw [h2]
    exact strStarts_append "/proc/" (t ++ u)
  rw [h] at ha
  rw [ha] at hb
  cases hb

/-- C7: with the numeric `logsize` option set, `/var/log/vdsm/*` is
requested with exactly that size cap (and never without one); with the
option absent it is requested without a cap (and never with one); and the
option affects nothing else: outside the one log-directory request, the
run's trace and propagated exception are independent of the option. -/
theorem logsize_option_spec (env : Env) (hs : envSane env) :
    (∀ n, env.logsize = some n →
      Event.copySpecLimit "/var/log/vdsm/*" n ∈ (setup env).1 ∧
      Event.copySpec "/var/log/vdsm/*" ∉ (setup env).1) ∧
    (env.logsize = none →
      Event.copySpec "/var/log/vdsm/*" ∈ (setup env).1 ∧
      ∀ m, Event.copySpecLimit "/var/log/vdsm/*" m ∉ (setup env).1) ∧
    (∀ env2 : Env, env2.dumpVolumeChains = env.dumpVolumeChains →
      env2.pgrepLines = env.pgrepLines → env2.runDirFiles = env.runDirFiles →
      env2.connect = env.connect →
      (setup env2).1.filter (fun e => !isVdsmLogEvent e) =
        (setup env).1.filter (fun e => !isVdsmLogEvent e) ∧
      (setup env2).2 = (setup env).2) := by
  refine ⟨?_, ?_, ?_⟩
  · intro n hl
    constructor
    · apply mem_setup_of_mem_pre
      simp [preTrace, logCopyEvent, hl]
    · intro hmem
      have h := (copy_events_only_pre env).1 _ hmem
      simp [preTrace, forbiddenEvents, extCmdEvents, procEvents, addVdsmRunDir,
        logCopyEvent, hl] at h
      rcases h with ⟨f, hf, _, hpath⟩ | ⟨line, _, h | h | h⟩
      · exact str_ne_of_starts "/var/run/vdsm/" f.path "/var/log/vdsm/*" (hs f hf)
          (by decide) hpath
      · exact proc_path_ne line.trim "/cmdline" "/var/log/vdsm/*" (by decide) h.symm
      · exact proc_path_ne line.trim "/status" "/var/log/vdsm/*" (by decide) h.symm
      · exact proc_path_ne line.trim "/mountstats" "/var/log/vdsm/*" (by decide) h.symm
  · intro hl
    constructor
    · apply mem_setup_of_mem_pre
      simp [preTrace, logCopyEvent, hl]
    · intro m hmem
      have h := (copy_events_only_pre env).2 _ _ hmem
      simp [preTrace, forbiddenEvents, extCmdEvents, procEvents, addVdsmRunDir,
        logCopyEvent, hl] at h
  · intro env2 hd hpg hrd hc
    obtain ⟨l1, d1, pg1, rd1, c1⟩ := env
    obtain ⟨l2, d2, pg2, rd2, c2⟩ := env2
    simp only at hd hpg hrd hc
    subst hd
    subst hpg
    subst hrd
    subst hc
    have hlev : ∀ o : Option Int,
        List.filter (fun e => !isVdsmLogEvent e) [logCopyEvent o] = [] := by
      intro o
      cases o <;> simp [logCopyEvent, isVdsmLogEvent]
    have hpre : (preTrace ⟨l2, d2, pg2, rd2, c2⟩).filter (fun e => !isVdsmLogEvent e) =
        (preTrace ⟨l1, d2, pg2, rd2, c2⟩).filter (fun e => !isVdsmLogEvent e) := by
      simp only [preTrace, List.filter_append, hlev]
    cases c2 with
    | error msg =>
      rw [setup, setup]
      simp only [List.filter_append, hpre]
      exact ⟨by first | rfl | trivial, by first | rfl | trivial⟩
    | ok cli =>
      rw [setup, setup]
      have ht : remoteTail ⟨l2, d2, pg2, rd2, .ok cli⟩ cli =
          remoteTail ⟨l1, d2, pg2, rd2, .ok cli⟩ cli := rfl
      simp only [List.filter_append, hpre, ht]
      exact ⟨by first | rfl | trivial, by first | rfl | trivial⟩

theorem logsize_option_spec_witness :
    envSane envLogCapped ∧
    (Event.copySpecLimit "/var/log/vdsm/*" 50 ∈ (setup envLogCapped).1 ∧
      Event.copySpec "/var/log/vdsm/*" ∉ (setup envLogCapped).1) := by
  have hs : envSane envLogCapped := by
    intro f hf
    simp only [envLogCapped, List.mem_singleton] at hf
    subst hf
    decide
  exact ⟨hs, (logsize_option_spec envLogCapped hs).1 50 rfl⟩

theorem countExt_dump_preTrace (env : Env) (s : String) :
    countExt ("vdsm-tool dump-volume-chains " ++ s) (preTrace env) = 0 := by
  rw [countExt]
  refine countP_eq_zero_of _ _ ?_
  intro e he
  simp only [preTrace, List.mem_append, List.mem_cons, List.not_mem_nil, or_false,
    forbiddenEvents, extCmdEvents] at he
  rcases he with ((((((h | h | h) | (h | h | h | h)) | h) | h) | (h | h | h | h)) | h) | h
  · subst h; rfl
  · subst h; rfl
  · subst h; rfl
  · subst h
    exact str_beq_false_of_head_ne 's' 'v' rfl rfl (by decide)
  · subst h; rfl
  · subst h; rfl
  · subst h; rfl
  · subst h
    rw [logCopyEvent.eq_def]
    cases env.logsize <;> rfl
  · simp only [addVdsmRunDir, List.mem_filterMap] at h
    obtain ⟨f, _, hf⟩ := h
    by_cases hc : (!(strEnds f.path ".vfd") && !(strEnds f.path "/isoUploader") &&
        !(strEnds f.path "/storage") && !f.isSock) = true
    · rw [if_pos hc] at hf
      cases Option.some.inj hf
      rfl
    · rw [if_neg hc] at hf
      cases hf
  · subst h; rfl
  · subst h; rfl
  · subst h; rfl
  · subst h; rfl
  · simp only [procEvents, List.mem_flatMap, List.mem_cons, List.not_mem_nil, or_false] at h
    obtain ⟨line, _, h | h | h⟩ := h <;> subst h <;> rfl
  · rcases h with h | h | h | h | h | h | h | h | h | h | h | h <;> subst h <;>
      exact str_beq_false_of_head_ne '/' 'v' rfl rfl (by decide)

theorem countExt_dump_host (cli : Client) (s : String) :
    countExt ("vdsm-tool dump-volume-chains " ++ s) (hostEvents cli) = 0 := by
  rw [countExt]
  refine countP_eq_zero_of _ _ ?_
  intro e he
  obtain ⟨c, n, h⟩ := hostEvents_shape cli e he
  subst h
  rfl

theorem countExt_dump_fan (cli : Client) (pools : List String) (s : String) :
    countExt ("vdsm-tool dump-volume-chains " ++ s) (poolFanout cli pools) = 0 := by
  rw [countExt]
  refine countP_eq_zero_of _ _ ?_
  intro e he
  simp only [poolFanout, List.mem_map] at he
  obtain ⟨pool, _, hpe⟩ := he
  obtain ⟨content, hc⟩ := collectVdsmCommand_shape ("StoragePool.getSpmStatus " ++ pool)
    (cli.StoragePool_getSpmStatus pool)
  rw [← hpe, hc]

/-- C8: the per-domain fan-out runs exactly when the `dump-volume-chains`
toggle is on: with it off, no `vdsm-tool dump-volume-chains` command is ever
issued; with it on, exactly one such command is issued per domain id
returned by the `getStorageDomains(domainClass=DATA_DOMAIN)` discovery. -/
theorem dump_volume_chains_toggle (env : Env) :
    (env.dumpVolumeChains = false →
      ∀ s, countExt ("vdsm-tool dump-volume-chains " ++ s) (setup env).1 = 0) ∧
    (∀ cli pools sds, env.connect = Except.ok cli → env.dumpVolumeChains = true →
      cli.Host_getConnectedStoragePools = Except.ok pools →
      cli.Host_getStorageDomains DATA_DOMAIN = Except.ok sds →
      ∀ sd, countExt ("vdsm-tool dump-volume-chains " ++ sd) (setup env).1 = sds.count sd) := by
  constructor
  · intro hdv s
    rw [setup]
    cases env.connect with
    | error msg =>
      rw [countExt, List.countP_append, ← countExt, ← countExt, countExt_dump_preTrace]
      rfl
    | ok cli =>
      have htail : countExt ("vdsm-tool dump-volume-chains " ++ s) (remoteTail env cli).1 = 0 := by
        rw [remoteTail]
        cases cli.Host_getConnectedStoragePools with
        | error msg => rfl
        | ok pools =>
          simp only [hdv, Bool.false_eq_true, if_false]
          exact countExt_dump_fan cli pools s
      rw [countExt, List.countP_append, List.countP_append, List.countP_cons,
        List.countP_append, ← countExt, ← countExt, ← countExt, ← countExt,
        countExt_dump_preTrace, countExt_dump_host, htail]
      rfl
  · intro cli pools sds hc hdv hp hsd sd
    rw [setup, hc]
    have htail : countExt ("vdsm-tool dump-volume-chains " ++ sd) (remoteTail env cli).1 =
        sds.count sd := by
      rw [remoteTail, hp]
      simp only [hdv, if_true, hsd]
      rw [countExt, List.countP_append, ← countExt, ← countExt, countExt_dump_fan]
      rw [countExt, List.countP_map, List.count_eq_countP]
      have hcongr : List.countP
          ((fun e => match e with
            | Event.extOutput c => c == "vdsm-tool dump-volume-chains " ++ sd
            | _ => false) ∘ fun sd2 => Event.extOutput ("vdsm-tool dump-volume-chains " ++ sd2))
          sds = List.countP (fun x => x == sd) sds := by
        refine List.countP_congr ?_
        intro sd2 _
        simp only [Function.comp]
        constructor
        · intro h
          have heq : "vdsm-tool dump-volume-chains " ++ sd2 =
              "vdsm-tool dump-volume-chains " ++ sd := eq_of_beq h
          exact beq_iff_eq.mpr ((str_append_right_inj _ _ _).mp heq)
        · intro h
          have h2 : sd2 = sd := eq_of_beq h
          subst h2
          exact beq_iff_eq.mpr rfl
      rw [hcongr]
      omega
    rw [countExt, List.countP_append, List.countP_append, List.countP_cons,
      List.countP_append, ← countExt, ← countExt, ← countExt, ← countExt,
      countExt_dump_preTrace, countExt_dump_host, htail]
    simp
    rfl

theorem dump_volume_chains_toggle_witness :
    countExt ("vdsm-tool dump-volume-chains " ++ "sdX") (setup envSomeFail).1 = 0 ∧
    countExt ("vdsm-tool dump-volume-chains " ++ "sd1")
      (setup { envSomeFail with dumpVolumeChains := true }).1 = 1 := by
  constructor
  · exact (dump_volume_chains_toggle envSomeFail).1 rfl "sdX"
  · have h := (dump_volume_chains_toggle { envSomeFail with dumpVolumeChains := true }).2
      cliSomeFail ["p1", "p2"] ["sd1", "sd2"] rfl rfl rfl rfl "sd1"
    rw [show List.count "sd1" ["sd1", "sd2"] = 1 from by decide] at h
    exact h


end Vdsm
